import Mathlib

/-!
# OTP lifecycle of the contact-form server (`server.js`)

A shallow embedding of the OTP store, the four request handlers and the
periodic sweep of `server.js`, followed by the properties proved about them.

Modelling conventions.

* A request field is a `JsVal`: what `express.json()` can put in `req.body`
  (`undefined` stands for an absent field).
* `otpStore` is a JavaScript `Map`. It is embedded as the list of its live
  entries in insertion order; `Store.get`, `Store.set` and `Store.delete`
  follow `Map.prototype.get/set/delete`. Every key is a string, because the
  only `set` with a new key uses `crypto.randomUUID()`.
* `Date.now()` is an integer number of milliseconds (`Int`). The values that
  occur are far below `2 ^ 53`, so `Date.now() + 10 * 60 * 1000` is exact.
* `transporter.sendMail` is external: its outcome is the Boolean `transport`
  handed to each handler (`true`: the promise resolves, `false`: it rejects).
* `Math.random()` and `crypto.randomUUID()` are inputs of `sendOtp`. The draw
  is given by its value, a rational `r`; the multiplication and the addition
  of `generateOTP` are those of IEEE 754 doubles: the exact result rounded to
  the nearest double, ties to even (`roundDouble`).
* A handler runs from request to response without another handler running
  in between.
-/

namespace AnantServer

/-! ## Request values -/

/-- A value of a parsed JSON body. Of a number the program only tests whether
it is zero, so `num` carries an integer (a fraction behaves as any non-zero
integer does). `compound` is an array or an object; JSON
parsing makes a fresh one for every request, and its flag tells whether the
conversion to a string done by a template literal completes (`true`) or throws
a `TypeError` (`false`, as for an object with an own `toString` property). -/
inductive JsVal where
  | undefined
  | null
  | bool (b : Bool)
  | num (x : Int)
  | str (s : String)
  | compound (printable : Bool)
  deriving DecidableEq

/-- JavaScript truthiness: `!v` is `false` exactly when `truthy v`. -/
def JsVal.truthy : JsVal → Bool
  | .undefined => false
  | .null => false
  | .bool b => b
  | .num x => decide (x ≠ 0)
  | .str s => decide (s ≠ "")
  | .compound _ => true

/-- Whether interpolating the value in a template literal completes. -/
def JsVal.printable : JsVal → Bool
  | .compound p => p
  | _ => true

/-- The comparison `stored === v` for a stored string. -/
def JsVal.strictEq (stored : String) : JsVal → Bool
  | .str s => decide (stored = s)
  | _ => false

/-! ## The OTP store -/

/-- The object kept under an id. `verified` is absent when the record is
created (`false` here) and `true` once `storedData.verified = true` has run. -/
structure OtpRecord where
  otp : String
  email : JsVal
  expiresAt : Int
  verified : Bool
  deriving DecidableEq

/-- The entries of `otpStore`, oldest first. -/
abbrev Store := List (String × OtpRecord)

/-- The keys of a `Map` are pairwise different. -/
def Store.WF (s : Store) : Prop := (s.map Prod.fst).Nodup

/-- Embedding of `otpStore.get(k)`. -/
def Store.get : Store → String → Option OtpRecord
  | [], _ => none
  | (k1, d) :: rest, k => if k1 = k then some d else Store.get rest k

/-- Embedding of `otpStore.set(k, d)`: an existing key keeps its place, a new
key goes last. -/
def Store.set : Store → String → OtpRecord → Store
  | [], k, d => [(k, d)]
  | (k1, d1) :: rest, k, d =>
    if k1 = k then (k, d) :: rest else (k1, d1) :: Store.set rest k d

/-- Embedding of `otpStore.delete(k)`. -/
def Store.delete (s : Store) (k : String) : Store :=
  s.filter (fun e => decide (e.1 ≠ k))

/-! ## Mail -/

/-- What is handed to `transporter.sendMail`: which of the three messages, and
the values interpolated in it. -/
inductive Mail where
  | otp (dest : JsVal) (code : String)
  | contact (name email subject : JsVal) (message : String)
  | enquiry (name email phone product : JsVal) (message : String)
  deriving DecidableEq

/-- Embedding of `sendOTPEmail`: the returned Boolean and the mail given to
the transport. Building `mailOptions` cannot throw here: `email` is used as
it is and `otp` is a string. -/
def sendOTPEmail (transport : Bool) (email : JsVal) (otp : String) : Bool × Mail :=
  (transport, Mail.otp email otp)

/-- Embedding of `sendContactEmail`. `mailOptions` is built before the `try`:
interpolating `name`, `email`, `subject` and calling `message.replace` throw a
`TypeError` on an unprintable compound, resp. on a `message` that is not a
string; the result is then `none`. -/
def sendContactEmail (transport : Bool) (name email subject message : JsVal) :
    Option (Bool × Mail) :=
  if name.printable && email.printable && subject.printable then
    match message with
    | .str m => some (transport, Mail.contact name email subject m)
    | _ => none
  else none

/-- Embedding of `sendEnquiryEmail`, built like `sendContactEmail`. -/
def sendEnquiryEmail (transport : Bool) (name email phone product message : JsVal) :
    Option (Bool × Mail) :=
  if name.printable && email.printable && phone.printable && product.printable then
    match message with
    | .str m => some (transport, Mail.enquiry name email phone product m)
    | _ => none
  else none

/-! ## Responses -/

/-- The JSON answer with its HTTP status (`res.json` alone answers 200). -/
structure Response where
  status : Nat
  success : Bool
  message : String
  otpId : Option String
  deriving DecidableEq

/-- The answer `res.status(code).json({ success: false, message })`. -/
def Response.failure (code : Nat) (msg : String) : Response :=
  ⟨code, false, msg, none⟩

/-- The answer `res.json({ success: true, message })`. -/
def Response.done (msg : String) : Response :=
  ⟨200, true, msg, none⟩

/-- What one run of a handler yields: its answer, the store it leaves and the
mails it handed to the transport. -/
structure Outcome where
  response : Response
  store : Store
  sent : List Mail
  deriving DecidableEq

/-! ## `generateOTP` -/

/-- The integer nearest to `q`, a tie going to the even one. -/
def roundHalfEven (q : ℚ) : ℤ :=
  if q - ⌊q⌋ < 1 / 2 then ⌊q⌋
  else if 1 / 2 < q - ⌊q⌋ then ⌊q⌋ + 1
  else if ⌊q⌋ % 2 = 0 then ⌊q⌋ else ⌊q⌋ + 1

/-- The exponent `e` of the doubles around `x`: `2 ^ e ≤ |x| < 2 ^ (e + 1)`,
and `-1022` for zero and in the subnormal range. -/
def binade (x : ℚ) : ℤ :=
  if x = 0 then -1022 else max (Int.log 2 |x|) (-1022)

/-- The spacing of the doubles around `x` (53 bits of significand). -/
def ulp (x : ℚ) : ℚ := 2 ^ (binade x - 52)

/-- The double nearest to `x`, ties to even: the result of a double operation
whose exact result is `x`. It is meant for `|x| < 2 ^ 1024`, where no overflow
occurs; `generateOTP` stays below `2 ^ 20`. -/
def roundDouble (x : ℚ) : ℚ := roundHalfEven (x / ulp x) * ulp x

/-- The finite doubles: `m * 2 ^ j` with `|m| < 2 ^ 53` and `-1074 ≤ j ≤ 971`. -/
def IsDouble (x : ℚ) : Prop :=
  ∃ m j : ℤ, |m| < 2 ^ 53 ∧ -1074 ≤ j ∧ j ≤ 971 ∧ x = m * 2 ^ j

/-- Embedding of `generateOTP`, as a function of the value `r` of the draw
`Math.random()`: `Math.floor(100000 + r * 900000).toString()`, the product and
the sum each rounded to a double. `Math.floor` is exact, and `toString` of an
integer-valued double of this size is its decimal numeral. -/
def generateOTP (r : ℚ) : String :=
  toString ⌊roundDouble (100000 + roundDouble (r * 900000))⌋

/-! ## The handlers -/

/-- Embedding of the `/api/send-otp` handler. -/
def sendOtp (store : Store) (email : JsVal) (r : ℚ) (uuid : String) (now : Int)
    (transport : Bool) : Outcome :=
  if !email.truthy then
    ⟨Response.failure 400 "Email is required", store, []⟩
  else
    let otp := generateOTP r
    let otpId := uuid
    let store1 := Store.set store otpId ⟨otp, email, now + 10 * 60 * 1000, false⟩
    let emailSent := sendOTPEmail transport email otp
    if emailSent.1 then
      ⟨⟨200, true, "OTP sent successfully", some otpId⟩, store1, [emailSent.2]⟩
    else
      ⟨Response.failure 500 "Failed to send OTP email", store1, [emailSent.2]⟩

/-- Embedding of the `/api/verify-otp` handler. A key that is not a string is
never found in the store. -/
def verifyOtp (store : Store) (otpId otp : JsVal) (now : Int) : Outcome :=
  if !otpId.truthy || !otp.truthy then
    ⟨Response.failure 400 "OTP ID and OTP are required", store, []⟩
  else
    match otpId with
    | .str id =>
      match Store.get store id with
      | none => ⟨Response.failure 400 "Invalid or expired OTP", store, []⟩
      | some storedData =>
        if now > storedData.expiresAt then
          ⟨Response.failure 400 "OTP has expired", Store.delete store id, []⟩
        else if !JsVal.strictEq storedData.otp otp then
          ⟨Response.failure 400 "Invalid OTP", store, []⟩
        else
          ⟨Response.done "OTP verified successfully",
            Store.set store id { storedData with verified := true }, []⟩
    | _ => ⟨Response.failure 400 "Invalid or expired OTP", store, []⟩

/-- Embedding of the `/api/submit-contact` handler. A `TypeError` thrown by
`sendContactEmail` is caught by the handler and answered with 500. -/
def submitContact (store : Store) (otpId name email subject message : JsVal)
    (now : Int) (transport : Bool) : Outcome :=
  if !otpId.truthy || !name.truthy || !email.truthy || !subject.truthy
      || !message.truthy then
    ⟨Response.failure 400 "All fields are required", store, []⟩
  else
    match otpId with
    | .str id =>
      match Store.get store id with
      | none => ⟨Response.failure 400 "OTP not verified", store, []⟩
      | some storedData =>
        if !storedData.verified then
          ⟨Response.failure 400 "OTP not verified", store, []⟩
        else if now > storedData.expiresAt then
          ⟨Response.failure 400 "OTP has expired", Store.delete store id, []⟩
        else
          match sendContactEmail transport name email subject message with
          | none => ⟨Response.failure 500 "Internal server error", store, []⟩
          | some (true, mail) =>
            ⟨Response.done "Contact form submitted successfully",
              Store.delete store id, [mail]⟩
          | some (false, mail) =>
            ⟨Response.failure 500 "Failed to submit contact form", store, [mail]⟩
    | _ => ⟨Response.failure 400 "OTP not verified", store, []⟩

/-- Embedding of the `/api/submit-enquiry` handler. -/
def submitEnquiry (store : Store) (name email phone product message : JsVal)
    (transport : Bool) : Outcome :=
  if !name.truthy || !email.truthy || !phone.truthy || !product.truthy
      || !message.truthy then
    ⟨Response.failure 400 "All fields are required", store, []⟩
  else
    match sendEnquiryEmail transport name email phone product message with
    | none => ⟨Response.failure 500 "Internal server error", store, []⟩
    | some (true, mail) => ⟨Response.done "Enquiry submitted successfully", store, [mail]⟩
    | some (false, mail) => ⟨Response.failure 500 "Failed to submit enquiry", store, [mail]⟩

/-! ## The periodic sweep

The loop `for (const [otpId, data] of otpStore.entries())` deletes from the
map it iterates over. In ECMAScript a `Map` keeps a list of entry slots;
`delete` empties the slot of the key without moving the others, and the
iterator walks the slots by index, skipping the emptied ones. -/

/-- One slot of the entry list of a `Map`; `none` is an emptied slot. -/
abbrev Slot := Option (String × OtpRecord)

/-- Emptying in place the slot that holds key `k`. -/
def deleteSlot (k : String) (slots : List Slot) : List Slot :=
  slots.map (fun e =>
    match e with
    | some (k1, d) => if k1 = k then none else some (k1, d)
    | none => none)

/-- The body of the loop when the iterator stands at index `i`. -/
def sweepStep (now : Int) (slots : List Slot) (i : Nat) : List Slot :=
  match slots.get? i with
  | some (some (otpId, data)) =>
    if now > data.expiresAt then deleteSlot otpId slots else slots
  | _ => slots

/-- Embedding of the callback of `setInterval`: the iterator visits every
index of the entry list, then the live entries are what is left. No entry is
added during the loop, so the indices are those of the initial list. -/
def sweep (now : Int) (store : Store) : Store :=
  ((List.range store.length).foldl (sweepStep now) (store.map some)).reduceOption

/-- The slot of an entry once the keys of `D` have been deleted. -/
def mark (D : List String) (e : String × OtpRecord) : Slot :=
  if e.1 ∈ D then none else some e

/-- The keys the loop deletes while it visits the entries `l`, starting with
the keys `D` already deleted. -/
def deletedKeys (now : Int) (D : List String) (l : List (String × OtpRecord)) :
    List String :=
  l.foldl (fun D e => if e.1 ∈ D then D else if now > e.2.expiresAt then e.1 :: D else D) D

/-! ## The operations as steps of a transition system -/

/-- One operation on the store, with all its inputs. -/
inductive Step where
  | sendOtp (email : JsVal) (r : ℚ) (uuid : String) (now : Int) (transport : Bool)
  | verifyOtp (otpId otp : JsVal) (now : Int)
  | submitContact (otpId name email subject message : JsVal) (now : Int)
      (transport : Bool)
  | submitEnquiry (name email phone product message : JsVal) (transport : Bool)
  | sweep (now : Int)

/-- The store left by a step. -/
def Step.apply (s : Store) : Step → Store
  | .sendOtp email r uuid now transport => (AnantServer.sendOtp s email r uuid now transport).store
  | .verifyOtp otpId otp now => (AnantServer.verifyOtp s otpId otp now).store
  | .submitContact otpId name email subject message now transport =>
    (AnantServer.submitContact s otpId name email subject message now transport).store
  | .submitEnquiry name email phone product message transport =>
    (AnantServer.submitEnquiry s name email phone product message transport).store
  | .sweep now => AnantServer.sweep now s

/-- The id generated by a `sendOtp` step is not a key of the store. -/
def Step.fresh (s : Store) : Step → Prop
  | .sendOtp _ _ uuid _ _ => Store.get s uuid = none
  | _ => True

/-- Running a list of steps, first to last. -/
def run (s : Store) : List Step → Store
  | [] => s
  | st :: rest => run (Step.apply s st) rest

/-- Every `sendOtp` step of the run generates an id new to the store it meets. -/
def FreshRun (s : Store) : List Step → Prop
  | [] => True
  | st :: rest => Step.fresh s st ∧ FreshRun (Step.apply s st) rest

/-! ## Lemmas on the store -/

theorem Store.get_set_self (s : Store) (k : String) (d : OtpRecord) :
    Store.get (Store.set s k d) k = some d := by
  induction s with
  | nil => simp [Store.set, Store.get]
  | cons e rest ih =>
    obtain ⟨k1, d1⟩ := e
    by_cases h : k1 = k
    · simp [Store.set, Store.get, h]
    · simp [Store.set, Store.get, h, ih]

theorem Store.get_set_other (s : Store) (k k2 : String) (d : OtpRecord) (h : k2 ≠ k) :
    Store.get (Store.set s k d) k2 = Store.get s k2 := by
  induction s with
  | nil => simp [Store.set, Store.get, h.symm]
  | cons e rest ih =>
    obtain ⟨k1, d1⟩ := e
    by_cases h1 : k1 = k
    · subst h1
      simp [Store.set, Store.get, h.symm]
    · by_cases h2 : k1 = k2
      · subst h2
        simp [Store.set, Store.get, h]
      · simp [Store.set, Store.get, h1, h2, ih]

theorem Store.get_delete_self (s : Store) (k : String) :
    Store.get (Store.delete s k) k = none := by
  induction s with
  | nil => simp [Store.delete, Store.get]
  | cons e rest ih =>
    obtain ⟨k1, d1⟩ := e
    by_cases h : k1 = k
    · simpa [Store.delete, List.filter_cons, h] using ih
    · simpa [Store.delete, List.filter_cons, h, Store.get] using ih

theorem Store.get_delete_other (s : Store) (k k2 : String) (h : k2 ≠ k) :
    Store.get (Store.delete s k) k2 = Store.get s k2 := by
  induction s with
  | nil => simp [Store.delete, Store.get]
  | cons e rest ih =>
    obtain ⟨k1, d1⟩ := e
    by_cases h1 : k1 = k
    · subst h1
      simpa [Store.delete, List.filter_cons, Store.get, h.symm] using ih
    · by_cases h2 : k1 = k2
      · subst h2
        simp [Store.delete, List.filter_cons, h, Store.get]
      · simpa [Store.delete, List.filter_cons, h1, Store.get, h2] using ih

theorem Store.set_of_get_none (s : Store) (k : String) (d : OtpRecord)
    (h : Store.get s k = none) : Store.set s k d = s ++ [(k, d)] := by
  induction s with
  | nil => simp [Store.set]
  | cons e rest ih =>
    obtain ⟨k1, d1⟩ := e
    by_cases h1 : k1 = k
    · simp [Store.get, h1] at h
    · simp only [Store.get, h1, if_false] at h
      simp [Store.set, h1, ih h]

theorem Store.keys_set_of_get_some (s : Store) (k : String) (d r : OtpRecord)
    (h : Store.get s k = some r) :
    (Store.set s k d).map Prod.fst = s.map Prod.fst := by
  induction s with
  | nil => simp [Store.get] at h
  | cons e rest ih =>
    obtain ⟨k1, d1⟩ := e
    by_cases h1 : k1 = k
    · simp [Store.set, h1]
    · simp only [Store.get, h1, if_false] at h
      simp [Store.set, h1, ih h]

theorem Store.delete_of_get_none (s : Store) (k : String)
    (h : Store.get s k = none) : Store.delete s k = s := by
  induction s with
  | nil => simp [Store.delete]
  | cons e rest ih =>
    obtain ⟨k1, d1⟩ := e
    by_cases h1 : k1 = k
    · simp [Store.get, h1] at h
    · simp only [Store.get, h1, if_false] at h
      have := ih h
      simp only [Store.delete] at this ⊢
      rw [List.filter_cons]
      have hd : decide ((k1, d1).1 ≠ k) = true := by simpa using h1
      rw [if_pos hd, this]

theorem Store.get_eq_none_iff (s : Store) (k : String) :
    Store.get s k = none ↔ k ∉ s.map Prod.fst := by
  induction s with
  | nil => simp [Store.get]
  | cons e rest ih =>
    obtain ⟨k1, d1⟩ := e
    by_cases h1 : k1 = k
    · simp [Store.get, h1]
    · have h2 : ¬ k = k1 := fun h => h1 h.symm
      simp [Store.get, h1, h2, ih]

theorem Store.get_mem (s : Store) (k : String) (r : OtpRecord)
    (h : Store.get s k = some r) : (k, r) ∈ s := by
  induction s with
  | nil => simp [Store.get] at h
  | cons e rest ih =>
    obtain ⟨k1, d1⟩ := e
    by_cases h1 : k1 = k
    · simp [Store.get, h1] at h
      simp [h1, h]
    · simp only [Store.get, h1, if_false] at h
      exact List.mem_cons_of_mem _ (ih h)

theorem Store.get_of_mem (s : Store) (hs : Store.WF s) (k : String) (r : OtpRecord)
    (h : (k, r) ∈ s) : Store.get s k = some r := by
  induction s with
  | nil => simp at h
  | cons e rest ih =>
    obtain ⟨k1, d1⟩ := e
    simp only [Store.WF, List.map_cons, List.nodup_cons] at hs
    rcases List.mem_cons.mp h with h1 | h1
    · simp only [Prod.mk.injEq] at h1
      simp [Store.get, h1.1, h1.2]
    · have hk : k1 ≠ k := by
        intro hk
        apply hs.1
        rw [hk]
        exact List.mem_map_of_mem Prod.fst h1
      simp only [Store.get, hk, if_false]
      exact ih hs.2 h1

/-! ## `verify-otp` -/

/-- C1. For a verify-otp request with both fields truthy the outcome is
decided in order: no record under the id gives 400 "Invalid or expired OTP"
with the store unchanged; a record with `now > expiresAt` is deleted and the
answer is 400 "OTP has expired"; a supplied code not strictly equal to the
stored one gives 400 "Invalid OTP" with the store unchanged; otherwise the
answer is the success "OTP verified successfully" and the store changes only
in that this record is verified. The three failure messages are pairwise
distinct, and the answer is a success exactly when the record exists, is not
expired and the codes are equal. -/
theorem verifyOtp_decision (store : Store) (otpId otp : JsVal) (now : Int)
    (hid : otpId.truthy = true) (hotp : otp.truthy = true) :
    ((∀ id, otpId = JsVal.str id → Store.get store id = none) →
      verifyOtp store otpId otp now
        = ⟨Response.failure 400 "Invalid or expired OTP", store, []⟩) ∧
    (∀ id r, otpId = JsVal.str id → Store.get store id = some r →
      (now > r.expiresAt →
        verifyOtp store otpId otp now
          = ⟨Response.failure 400 "OTP has expired", Store.delete store id, []⟩ ∧
        Store.get (verifyOtp store otpId otp now).store id = none ∧
        ∀ k, k ≠ id →
          Store.get (verifyOtp store otpId otp now).store k = Store.get store k) ∧
      (now ≤ r.expiresAt → otp ≠ JsVal.str r.otp →
        verifyOtp store otpId otp now
          = ⟨Response.failure 400 "Invalid OTP", store, []⟩) ∧
      (now ≤ r.expiresAt → otp = JsVal.str r.otp →
        verifyOtp store otpId otp now
          = ⟨Response.done "OTP verified successfully",
              Store.set store id { r with verified := true }, []⟩ ∧
        (verifyOtp store otpId otp now).store.map Prod.fst = store.map Prod.fst ∧
        ∀ k, Store.get (verifyOtp store otpId otp now).store k
          = if k = id then some { r with verified := true } else Store.get store k)) ∧
    ("Invalid or expired OTP" ≠ "OTP has expired" ∧
      "Invalid or expired OTP" ≠ "Invalid OTP" ∧ "OTP has expired" ≠ "Invalid OTP") ∧
    ((verifyOtp store otpId otp now).response.success = true ↔
      ∃ id r, otpId = JsVal.str id ∧ Store.get store id = some r ∧
        now ≤ r.expiresAt ∧ otp = JsVal.str r.otp) := by
  have hstrict : ∀ s : String, JsVal.strictEq s otp = true ↔ otp = JsVal.str s := by
    intro s
    cases otp <;> simp [JsVal.strictEq, eq_comm]
  refine ⟨?_, ?_, by decide, ?_⟩
  · intro hnone
    cases otpId with
    | str id => simp [verifyOtp, hid, hotp, hnone id rfl]
    | _ => simp [verifyOtp, hid, hotp]
  · intro id r hk hget
    subst hk
    refine ⟨?_, ?_, ?_⟩
    · intro hexp
      have h1 : verifyOtp store (JsVal.str id) otp now
          = ⟨Response.failure 400 "OTP has expired", Store.delete store id, []⟩ := by
        simp [verifyOtp, hid, hotp, hget, hexp]
      refine ⟨h1, ?_, ?_⟩
      · rw [h1]; exact Store.get_delete_self store id
      · intro k hk
        rw [h1]; exact Store.get_delete_other store id k hk
    · intro hle hne
      have hnot : ¬ now > r.expiresAt := not_lt.mpr hle
      have hs : JsVal.strictEq r.otp otp = false := by
        cases h : JsVal.strictEq r.otp otp
        · rfl
        · exact absurd ((hstrict r.otp).mp h) hne
      simp [verifyOtp, hid, hotp, hget, hnot, hs]
    · intro hle heq
      have hnot : ¬ now > r.expiresAt := not_lt.mpr hle
      have hs : JsVal.strictEq r.otp otp = true := (hstrict r.otp).mpr heq
      have h1 : verifyOtp store (JsVal.str id) otp now
          = ⟨Response.done "OTP verified successfully",
              Store.set store id { r with verified := true }, []⟩ := by
        simp [verifyOtp, hid, hotp, hget, hnot, hs]
      refine ⟨h1, ?_, ?_⟩
      · rw [h1]; exact Store.keys_set_of_get_some store id _ r hget
      · intro k
        rw [h1]
        by_cases hk : k = id
        · subst hk
          simp [Store.get_set_self]
        · simp [hk, Store.get_set_other store id k _ hk]
  · constructor
    · intro hsucc
      cases otpId with
      | str id =>
        cases hget : Store.get store id with
        | none => simp [verifyOtp, hid, hotp, hget, Response.failure] at hsucc
        | some r =>
          by_cases hexp : now > r.expiresAt
          · simp [verifyOtp, hid, hotp, hget, hexp, Response.failure] at hsucc
          · cases hs : JsVal.strictEq r.otp otp
            · simp [verifyOtp, hid, hotp, hget, hexp, hs, Response.failure] at hsucc
            · exact ⟨id, r, rfl, hget, not_lt.mp hexp, (hstrict r.otp).mp hs⟩
      | _ => simp [verifyOtp, hid, hotp, Response.failure] at hsucc
    · rintro ⟨id, r, hk, hget, hle, heq⟩
      subst hk
      have hnot : ¬ now > r.expiresAt := not_lt.mpr hle
      have hs : JsVal.strictEq r.otp otp = true := (hstrict r.otp).mpr heq
      simp [verifyOtp, hid, hotp, hget, hnot, hs, Response.done]

/-- C1, at a store with one pending record and the right code. -/
theorem verifyOtp_decision_witness :
    JsVal.truthy (JsVal.str "id-1") = true ∧ JsVal.truthy (JsVal.str "123456") = true ∧
    (verifyOtp [("id-1", ⟨"123456", JsVal.str "a@x.com", 1000, false⟩)]
      (JsVal.str "id-1") (JsVal.str "123456") 400).response.success = true :=
  ⟨by decide, by decide,
    (verifyOtp_decision [("id-1", ⟨"123456", JsVal.str "a@x.com", 1000, false⟩)]
      (JsVal.str "id-1") (JsVal.str "123456") 400 (by decide) (by decide)).2.2.2.mpr
      ⟨"id-1", ⟨"123456", JsVal.str "a@x.com", 1000, false⟩, rfl, by decide, by decide,
        rfl⟩⟩

/-! ## `submit-contact` -/

/-- A submit-contact request with all five fields truthy, naming an id the
store does not hold, is answered 400 "OTP not verified" before any mail is
built; the store is unchanged. -/
theorem submitContact_absent (store : Store) (id : String)
    (name email subject message : JsVal) (now : Int) (transport : Bool)
    (hget : Store.get store id = none)
    (hid : (JsVal.str id).truthy = true) (hname : name.truthy = true)
    (hemail : email.truthy = true) (hsubject : subject.truthy = true)
    (hmessage : message.truthy = true) :
    submitContact store (JsVal.str id) name email subject message now transport
      = ⟨Response.failure 400 "OTP not verified", store, []⟩ := by
  simp [submitContact, hid, hname, hemail, hsubject, hmessage, hget]

/-- A verify-otp request with both fields truthy, naming an id the store does
not hold, is answered 400 "Invalid or expired OTP"; the store is unchanged. -/
theorem verifyOtp_absent (store : Store) (id : String) (otp : JsVal) (now : Int)
    (hget : Store.get store id = none)
    (hid : (JsVal.str id).truthy = true) (hotp : otp.truthy = true) :
    verifyOtp store (JsVal.str id) otp now
      = ⟨Response.failure 400 "Invalid or expired OTP", store, []⟩ := by
  simp [verifyOtp, hid, hotp, hget]

/-- A submit-contact request with all five fields truthy on a verified record
that is not expired: the answer follows what `sendContactEmail` returns. -/
theorem submitContact_live (store : Store) (id : String) (r : OtpRecord)
    (name email subject message : JsVal) (now : Int) (transport : Bool)
    (hget : Store.get store id = some r) (hver : r.verified = true)
    (hle : now ≤ r.expiresAt)
    (hid : (JsVal.str id).truthy = true) (hname : name.truthy = true)
    (hemail : email.truthy = true) (hsubject : subject.truthy = true)
    (hmessage : message.truthy = true) :
    submitContact store (JsVal.str id) name email subject message now transport
      = match sendContactEmail transport name email subject message with
        | none => ⟨Response.failure 500 "Internal server error", store, []⟩
        | some (true, mail) =>
          ⟨Response.done "Contact form submitted successfully",
            Store.delete store id, [mail]⟩
        | some (false, mail) =>
          ⟨Response.failure 500 "Failed to submit contact form", store, [mail]⟩ := by
  have hnot : ¬ now > r.expiresAt := not_lt.mpr hle
  simp [submitContact, hid, hname, hemail, hsubject, hmessage, hget, hver, hnot]

/-- C2. On a store holding a verified record under `id` with
`now ≤ expiresAt`, a submit-contact request naming `id` with all five fields
truthy for which `sendContactEmail` returns `true` is answered with the
success, and the store left is the old one without the record under `id`
(every other record unchanged). Every later submit-contact request naming
`id` (all fields truthy, any time, any transport outcome) is rejected with
400 "OTP not verified" because no record is found, hands no mail to the
transport and leaves the store unchanged. -/
theorem submitContact_consumes (store : Store) (id : String) (r : OtpRecord)
    (name email subject message : JsVal) (now : Int) (transport : Bool) (mail : Mail)
    (hget : Store.get store id = some r) (hver : r.verified = true)
    (hle : now ≤ r.expiresAt)
    (hid : (JsVal.str id).truthy = true) (hname : name.truthy = true)
    (hemail : email.truthy = true) (hsubject : subject.truthy = true)
    (hmessage : message.truthy = true)
    (hsend : sendContactEmail transport name email subject message = some (true, mail)) :
    submitContact store (JsVal.str id) name email subject message now transport
      = ⟨Response.done "Contact form submitted successfully",
          Store.delete store id, [mail]⟩ ∧
    (submitContact store (JsVal.str id) name email subject message now
      transport).response.success = true ∧
    Store.get (submitContact store (JsVal.str id) name email subject message now
      transport).store id = none ∧
    (∀ k, k ≠ id →
      Store.get (submitContact store (JsVal.str id) name email subject message now
        transport).store k = Store.get store k) ∧
    ∀ (name2 email2 subject2 message2 : JsVal) (now2 : Int) (transport2 : Bool),
      name2.truthy = true → email2.truthy = true → subject2.truthy = true →
      message2.truthy = true →
      submitContact
          (submitContact store (JsVal.str id) name email subject message now
            transport).store
          (JsVal.str id) name2 email2 subject2 message2 now2 transport2
        = ⟨Response.failure 400 "OTP not verified",
            (submitContact store (JsVal.str id) name email subject message now
              transport).store, []⟩ := by
  have h1 := submitContact_live store id r name email subject message now transport
    hget hver hle hid hname hemail hsubject hmessage
  rw [hsend] at h1
  simp only at h1
  rw [h1]
  refine ⟨rfl, rfl, Store.get_delete_self store id,
    fun k hk => Store.get_delete_other store id k hk, ?_⟩
  intro name2 email2 subject2 message2 now2 transport2 hn he hs hm
  exact submitContact_absent _ id name2 email2 subject2 message2 now2 transport2
    (Store.get_delete_self store id) hid hn he hs hm

/-- C2, at a store with one verified record. -/
theorem submitContact_consumes_witness :
    (submitContact [("id-1", ⟨"123456", JsVal.str "a@x.com", 1000, true⟩)]
        (JsVal.str "id-1") (JsVal.str "Asha") (JsVal.str "a@x.com")
        (JsVal.str "Quote") (JsVal.str "Hello") 400 true).store = [] ∧
    (submitContact [] (JsVal.str "id-1") (JsVal.str "Asha") (JsVal.str "a@x.com")
        (JsVal.str "Quote") (JsVal.str "Hello") 401 true).response.status = 400 := by
  have h := submitContact_consumes
    [("id-1", ⟨"123456", JsVal.str "a@x.com", 1000, true⟩)] "id-1"
    ⟨"123456", JsVal.str "a@x.com", 1000, true⟩
    (JsVal.str "Asha") (JsVal.str "a@x.com") (JsVal.str "Quote") (JsVal.str "Hello")
    400 true (Mail.contact (JsVal.str "Asha") (JsVal.str "a@x.com") (JsVal.str "Quote") "Hello")
    (by decide) (by decide) (by decide) (by decide) (by decide) (by decide) (by decide)
    (by decide) (by decide)
  have hs : (submitContact [("id-1", ⟨"123456", JsVal.str "a@x.com", 1000, true⟩)]
        (JsVal.str "id-1") (JsVal.str "Asha") (JsVal.str "a@x.com")
        (JsVal.str "Quote") (JsVal.str "Hello") 400 true).store = [] := by
    rw [h.1]; decide
  refine ⟨hs, ?_⟩
  have h2 := h.2.2.2.2 (JsVal.str "Asha") (JsVal.str "a@x.com") (JsVal.str "Quote")
    (JsVal.str "Hello") 401 true (by decide) (by decide) (by decide) (by decide)
  rw [hs] at h2
  rw [h2]
  rfl

/-- C6. On a store holding a verified record `r` under `id` with
`now ≤ r.expiresAt`, a submit-contact request naming `id` with all five fields
truthy for which `sendContactEmail` returns `false` is answered
500 "Failed to submit contact form" and the store is unchanged, so `r` is
still there with the same fields; and a following submit-contact request
naming `id` at a time `≤ r.expiresAt` for which `sendContactEmail` returns
`true` is answered with the success. -/
theorem submitContact_delivery_failure (store : Store) (id : String) (r : OtpRecord)
    (name email subject message : JsVal) (now : Int) (transport : Bool) (mail : Mail)
    (hget : Store.get store id = some r) (hver : r.verified = true)
    (hle : now ≤ r.expiresAt)
    (hid : (JsVal.str id).truthy = true) (hname : name.truthy = true)
    (hemail : email.truthy = true) (hsubject : subject.truthy = true)
    (hmessage : message.truthy = true)
    (hsend : sendContactEmail transport name email subject message = some (false, mail)) :
    submitContact store (JsVal.str id) name email subject message now transport
      = ⟨Response.failure 500 "Failed to submit contact form", store, [mail]⟩ ∧
    Store.get (submitContact store (JsVal.str id) name email subject message now
      transport).store id = some r ∧
    ∀ (name2 email2 subject2 message2 : JsVal) (now2 : Int) (transport2 : Bool)
      (mail2 : Mail),
      now2 ≤ r.expiresAt →
      name2.truthy = true → email2.truthy = true → subject2.truthy = true →
      message2.truthy = true →
      sendContactEmail transport2 name2 email2 subject2 message2 = some (true, mail2) →
      (submitContact
          (submitContact store (JsVal.str id) name email subject message now
            transport).store
          (JsVal.str id) name2 email2 subject2 message2 now2 transport2).response
        = Response.done "Contact form submitted successfully" := by
  have h1 := submitContact_live store id r name email subject message now transport
    hget hver hle hid hname hemail hsubject hmessage
  rw [hsend] at h1
  simp only at h1
  rw [h1]
  refine ⟨rfl, hget, ?_⟩
  intro name2 email2 subject2 message2 now2 transport2 mail2 hle2 hn he hs hm hsend2
  have h2 := submitContact_live store id r name2 email2 subject2 message2 now2
    transport2 hget hver hle2 hid hn he hs hm
  rw [hsend2] at h2
  simp only at h2
  rw [h2]

/-- C6, at a store with one verified record and a transport that rejects. -/
theorem submitContact_delivery_failure_witness :
    (submitContact [("id-1", ⟨"123456", JsVal.str "a@x.com", 1000, true⟩)]
        (JsVal.str "id-1") (JsVal.str "Asha") (JsVal.str "a@x.com")
        (JsVal.str "Quote") (JsVal.str "Hello") 400 false)
      = ⟨Response.failure 500 "Failed to submit contact form",
          [("id-1", ⟨"123456", JsVal.str "a@x.com", 1000, true⟩)],
          [Mail.contact (JsVal.str "Asha") (JsVal.str "a@x.com") (JsVal.str "Quote")
            "Hello"]⟩ :=
  (submitContact_delivery_failure
    [("id-1", ⟨"123456", JsVal.str "a@x.com", 1000, true⟩)] "id-1"
    ⟨"123456", JsVal.str "a@x.com", 1000, true⟩
    (JsVal.str "Asha") (JsVal.str "a@x.com") (JsVal.str "Quote") (JsVal.str "Hello")
    400 false (Mail.contact (JsVal.str "Asha") (JsVal.str "a@x.com") (JsVal.str "Quote") "Hello")
    (by decide) (by decide) (by decide) (by decide) (by decide) (by decide) (by decide)
    (by decide) (by decide)).1

/-- C7. On a store holding a record under `id` that is not verified, at any
time, a submit-contact request naming `id` with all five fields truthy is
answered 400 "OTP not verified", hands no mail to the transport and leaves the
store unchanged: the record under `id` is still there. -/
theorem submitContact_unverified (store : Store) (id : String) (r : OtpRecord)
    (name email subject message : JsVal) (now : Int) (transport : Bool)
    (hget : Store.get store id = some r) (hver : r.verified = false)
    (hid : (JsVal.str id).truthy = true) (hname : name.truthy = true)
    (hemail : email.truthy = true) (hsubject : subject.truthy = true)
    (hmessage : message.truthy = true) :
    submitContact store (JsVal.str id) name email subject message now transport
      = ⟨Response.failure 400 "OTP not verified", store, []⟩ ∧
    (submitContact store (JsVal.str id) name email subject message now
      transport).sent = [] ∧
    Store.get (submitContact store (JsVal.str id) name email subject message now
      transport).store id = some r := by
  have h1 : submitContact store (JsVal.str id) name email subject message now transport
      = ⟨Response.failure 400 "OTP not verified", store, []⟩ := by
    simp [submitContact, hid, hname, hemail, hsubject, hmessage, hget, hver]
  rw [h1]
  exact ⟨rfl, rfl, hget⟩

/-- C7, at a pending record already past its expiry. -/
theorem submitContact_unverified_witness :
    Store.get (submitContact [("id-1", ⟨"123456", JsVal.str "a@x.com", 1000, false⟩)]
        (JsVal.str "id-1") (JsVal.str "Asha") (JsVal.str "a@x.com")
        (JsVal.str "Quote") (JsVal.str "Hello") 2000 true).store "id-1"
      = some ⟨"123456", JsVal.str "a@x.com", 1000, false⟩ :=
  (submitContact_unverified
    [("id-1", ⟨"123456", JsVal.str "a@x.com", 1000, false⟩)] "id-1"
    ⟨"123456", JsVal.str "a@x.com", 1000, false⟩
    (JsVal.str "Asha") (JsVal.str "a@x.com") (JsVal.str "Quote") (JsVal.str "Hello")
    2000 true (by decide) (by decide) (by decide) (by decide) (by decide) (by decide)
    (by decide)).2.2

/-! ## Repeated verification -/

theorem Store.set_set (s : Store) (k : String) (d : OtpRecord) :
    Store.set (Store.set s k d) k d = Store.set s k d := by
  induction s with
  | nil => simp [Store.set]
  | cons e rest ih =>
    obtain ⟨k1, d1⟩ := e
    by_cases h : k1 = k
    · simp [Store.set, h]
    · simp [Store.set, h, ih]

/-- C8. On a store holding a record `r` under `id` and for times
`t1 ≤ t2 ≤ r.expiresAt`, a verify-otp request naming `id` with the stored code
at `t1` is answered with the success, a second identical request at `t2` too,
and the store after the second request is the store after the first: the
old store with this record verified. (Both request fields are present: the id
and the stored code are non-empty strings.) -/
theorem verifyOtp_idempotent (store : Store) (id : String) (r : OtpRecord)
    (t1 t2 : Int) (hget : Store.get store id = some r)
    (hid : (JsVal.str id).truthy = true) (hotp : (JsVal.str r.otp).truthy = true)
    (h12 : t1 ≤ t2) (h2 : t2 ≤ r.expiresAt) :
    verifyOtp store (JsVal.str id) (JsVal.str r.otp) t1
      = ⟨Response.done "OTP verified successfully",
          Store.set store id { r with verified := true }, []⟩ ∧
    verifyOtp (verifyOtp store (JsVal.str id) (JsVal.str r.otp) t1).store
        (JsVal.str id) (JsVal.str r.otp) t2
      = ⟨Response.done "OTP verified successfully",
          (verifyOtp store (JsVal.str id) (JsVal.str r.otp) t1).store, []⟩ ∧
    (∀ k, Store.get (verifyOtp store (JsVal.str id) (JsVal.str r.otp) t1).store k
      = if k = id then some { r with verified := true } else Store.get store k) := by
  have hn1 : ¬ t1 > r.expiresAt := not_lt.mpr (le_trans h12 h2)
  have hn2 : ¬ t2 > r.expiresAt := not_lt.mpr h2
  have hfirst : verifyOtp store (JsVal.str id) (JsVal.str r.otp) t1
      = ⟨Response.done "OTP verified successfully",
          Store.set store id { r with verified := true }, []⟩ := by
    simp [verifyOtp, hid, hotp, hget, hn1, JsVal.strictEq]
  rw [hfirst]
  refine ⟨rfl, ?_, ?_⟩
  · have hget2 : Store.get (Store.set store id { r with verified := true }) id
        = some { r with verified := true } := Store.get_set_self store id _
    simp [verifyOtp, hid, hotp, hget2, hn2, JsVal.strictEq, Store.set_set]
  · intro k
    by_cases hk : k = id
    · subst hk
      simp [Store.get_set_self]
    · simp [hk, Store.get_set_other store id k _ hk]

/-- C8, at a store with one pending record. -/
theorem verifyOtp_idempotent_witness :
    verifyOtp (verifyOtp [("id-1", ⟨"123456", JsVal.str "a@x.com", 1000, false⟩)]
        (JsVal.str "id-1") (JsVal.str "123456") 400).store
        (JsVal.str "id-1") (JsVal.str "123456") 900
      = ⟨Response.done "OTP verified successfully",
          (verifyOtp [("id-1", ⟨"123456", JsVal.str "a@x.com", 1000, false⟩)]
            (JsVal.str "id-1") (JsVal.str "123456") 400).store, []⟩ :=
  (verifyOtp_idempotent [("id-1", ⟨"123456", JsVal.str "a@x.com", 1000, false⟩)]
    "id-1" ⟨"123456", JsVal.str "a@x.com", 1000, false⟩ 400 900
    (by decide) (by decide) (by decide) (by decide) (by decide)).2.1

/-! ## `send-otp` -/

/-- C5. For a truthy `email`, an id not yet a key of the store and either
transport outcome, send-otp leaves the old store plus one new record under
the generated id, holding the code of `generateOTP`, the given email,
`expiresAt = now + 600000` and not verified. When `sendOTPEmail` returns
`true` the answer is the success carrying the id; when it returns `false` the
answer is 500 "Failed to send OTP email" and the record stays. With a falsy
`email` the answer is 400 and the store is unchanged. -/
theorem sendOtp_creates (store : Store) (email : JsVal) (r : ℚ) (uuid : String)
    (now : Int) (transport : Bool)
    (hemail : email.truthy = true) (hfresh : Store.get store uuid = none) :
    (sendOtp store email r uuid now transport).store
      = store ++ [(uuid, ⟨generateOTP r, email, now + 600000, false⟩)] ∧
    Store.get (sendOtp store email r uuid now transport).store uuid
      = some ⟨generateOTP r, email, now + 600000, false⟩ ∧
    (∀ k, k ≠ uuid →
      Store.get (sendOtp store email r uuid now transport).store k = Store.get store k) ∧
    ((sendOTPEmail transport email (generateOTP r)).1 = true →
      (sendOtp store email r uuid now transport).response
        = ⟨200, true, "OTP sent successfully", some uuid⟩) ∧
    ((sendOTPEmail transport email (generateOTP r)).1 = false →
      (sendOtp store email r uuid now transport).response
        = Response.failure 500 "Failed to send OTP email") ∧
    (∀ missing : JsVal, missing.truthy = false →
      sendOtp store missing r uuid now transport
        = ⟨Response.failure 400 "Email is required", store, []⟩) := by
  have hstore : (sendOtp store email r uuid now transport).store
      = Store.set store uuid ⟨generateOTP r, email, now + 600000, false⟩ := by
    cases transport <;> simp [sendOtp, hemail, sendOTPEmail]
  refine ⟨?_, ?_, ?_, ?_, ?_, ?_⟩
  · rw [hstore]; exact Store.set_of_get_none store uuid _ hfresh
  · rw [hstore]; exact Store.get_set_self store uuid _
  · intro k hk
    rw [hstore]; exact Store.get_set_other store uuid k _ hk
  · intro ht
    simp only [sendOTPEmail] at ht
    simp [sendOtp, hemail, sendOTPEmail, ht]
  · intro ht
    simp only [sendOTPEmail] at ht
    simp [sendOtp, hemail, sendOTPEmail, ht]
  · intro missing hm
    simp [sendOtp, hm]

/-- C5, on the empty store with a transport that rejects. -/
theorem sendOtp_creates_witness :
    (sendOtp [] (JsVal.str "a@x.com") (1 / 2) "id-1" 1000 false).store
      = [] ++ [("id-1", ⟨generateOTP (1 / 2), JsVal.str "a@x.com", 1000 + 600000, false⟩)] :=
  (sendOtp_creates [] (JsVal.str "a@x.com") (1 / 2) "id-1" 1000 false
    (by decide) (by decide)).1

/-! ## The sweep -/

theorem deleteSlot_mark (k : String) (D : List String) (s : Store) :
    deleteSlot k (s.map (mark D)) = s.map (mark (k :: D)) := by
  unfold deleteSlot
  rw [List.map_map]
  apply List.map_congr_left
  intro e _
  obtain ⟨k1, d1⟩ := e
  by_cases h1 : k1 ∈ D
  · simp [mark, h1]
  · by_cases h2 : k1 = k
    · subst h2
      simp [mark, h1]
    · simp [mark, h1, h2]

theorem sweep_fold (now : Int) (s : Store) :
    ∀ n, n ≤ s.length →
      (List.range n).foldl (sweepStep now) (s.map some)
        = s.map (mark (deletedKeys now [] (s.take n))) := by
  intro n
  induction n with
  | zero =>
    intro _
    simp [deletedKeys, mark]
  | succ n ih =>
    intro hn
    have hlt : n < s.length := hn
    rw [List.range_succ, List.foldl_append, ih (Nat.le_of_lt hlt)]
    have htake : s.take (n + 1) = s.take n ++ [s[n]] := by
      rw [List.take_succ, List.getElem?_eq_getElem hlt]
      rfl
    have hD : deletedKeys now [] (s.take n ++ [s[n]])
        = (if (s[n]).1 ∈ deletedKeys now [] (s.take n) then deletedKeys now [] (s.take n)
            else if now > (s[n]).2.expiresAt then (s[n]).1 :: deletedKeys now [] (s.take n)
            else deletedKeys now [] (s.take n)) := by
      unfold deletedKeys
      rw [List.foldl_append]
      rfl
    have hget : (s.map (mark (deletedKeys now [] (s.take n)))).get? n
        = some (mark (deletedKeys now [] (s.take n)) s[n]) := by
      simp [List.getElem?_eq_getElem hlt]
    rw [htake, hD]
    generalize deletedKeys now [] (s.take n) = D at hget ⊢
    generalize s[n] = e at hget ⊢
    obtain ⟨k1, d1⟩ := e
    simp only [List.foldl_cons, List.foldl_nil]
    unfold sweepStep
    rw [hget]
    by_cases h1 : k1 ∈ D
    · simp [mark, h1]
    · by_cases h2 : now > d1.expiresAt
      · simp only [mark, h1, if_false, h2, if_true]
        exact deleteSlot_mark k1 D s
      · simp [mark, h1, h2]

theorem reduceOption_mark (D : List String) (s : Store) :
    (s.map (mark D)).reduceOption = s.filter (fun e => decide (e.1 ∉ D)) := by
  induction s with
  | nil => simp
  | cons e rest ih =>
    by_cases h : e.1 ∈ D
    · simp [mark, h, List.reduceOption_cons_of_none, List.filter_cons] at ih ⊢
      exact ih
    · simp [mark, h, List.reduceOption_cons_of_some, List.filter_cons] at ih ⊢
      exact ih

/-- The loop leaves the entries whose key it has not deleted. -/
theorem sweep_eq (now : Int) (s : Store) :
    sweep now s = s.filter (fun e => decide (e.1 ∉ deletedKeys now [] s)) := by
  unfold sweep
  rw [sweep_fold now s s.length (le_refl _), List.take_length, reduceOption_mark]

theorem mem_deletedKeys (now : Int) (k : String) (l : List (String × OtpRecord)) :
    ∀ D, k ∈ deletedKeys now D l ↔ k ∈ D ∨ ∃ d, (k, d) ∈ l ∧ now > d.expiresAt := by
  induction l with
  | nil => intro D; simp [deletedKeys]
  | cons e rest ih =>
    intro D
    obtain ⟨k1, d1⟩ := e
    have hstep : deletedKeys now D ((k1, d1) :: rest)
        = deletedKeys now
            (if k1 ∈ D then D else if now > d1.expiresAt then k1 :: D else D) rest := by
      simp [deletedKeys]
    rw [hstep, ih]
    by_cases h1 : k1 ∈ D
    · simp only [h1, if_true, List.mem_cons, Prod.mk.injEq]
      constructor
      · rintro (h | ⟨d, hd, hx⟩)
        · exact Or.inl h
        · exact Or.inr ⟨d, Or.inr hd, hx⟩
      · rintro (h | ⟨d, (⟨hk, _⟩ | hd), hx⟩)
        · exact Or.inl h
        · exact Or.inl (hk ▸ h1)
        · exact Or.inr ⟨d, hd, hx⟩
    · by_cases h2 : now > d1.expiresAt
      · simp only [h1, if_false, h2, if_true, List.mem_cons, Prod.mk.injEq]
        constructor
        · rintro ((h | h) | ⟨d, hd, hx⟩)
          · exact Or.inr ⟨d1, Or.inl ⟨h, rfl⟩, h2⟩
          · exact Or.inl h
          · exact Or.inr ⟨d, Or.inr hd, hx⟩
        · rintro (h | ⟨d, (⟨hk, _⟩ | hd), hx⟩)
          · exact Or.inl (Or.inr h)
          · exact Or.inl (Or.inl hk)
          · exact Or.inr ⟨d, hd, hx⟩
      · simp only [h1, if_false, h2, List.mem_cons, Prod.mk.injEq]
        constructor
        · rintro (h | ⟨d, hd, hx⟩)
          · exact Or.inl h
          · exact Or.inr ⟨d, Or.inr hd, hx⟩
        · rintro (h | ⟨d, (⟨_, hd⟩ | hd), hx⟩)
          · exact Or.inl h
          · exact absurd (hd ▸ hx) h2
          · exact Or.inr ⟨d, hd, hx⟩

theorem Store.get_filter_key (s : Store) (q : String → Bool) (k : String) :
    Store.get (s.filter (fun e => q e.1)) k = if q k then Store.get s k else none := by
  induction s with
  | nil => simp [Store.get]
  | cons e rest ih =>
    obtain ⟨k1, d1⟩ := e
    by_cases h1 : k1 = k
    · subst h1
      cases hq : q k1
      · simp [List.filter_cons, hq] at ih ⊢
        exact ih
      · simp [List.filter_cons, hq, Store.get]
    · cases hq : q k1
      · simp only [List.filter_cons, hq, Store.get, h1, if_false]
        exact ih
      · simp only [List.filter_cons, hq, Store.get, h1, if_false, if_true]
        exact ih

/-- What a sweep leaves under a key: nothing if some entry with that key is
expired, otherwise what was there. -/
theorem get_sweep (now : Int) (s : Store) (k : String) :
    ((∃ d, (k, d) ∈ s ∧ now > d.expiresAt) → Store.get (sweep now s) k = none) ∧
    ((¬ ∃ d, (k, d) ∈ s ∧ now > d.expiresAt) →
      Store.get (sweep now s) k = Store.get s k) := by
  rw [sweep_eq, Store.get_filter_key s (fun k => decide (k ∉ deletedKeys now [] s)) k]
  have hmem := mem_deletedKeys now k s []
  simp only [List.not_mem_nil, false_or] at hmem
  constructor
  · intro h
    simp [hmem.mpr h]
  · intro h
    have h2 : k ∉ deletedKeys now [] s := fun hk => h (hmem.mp hk)
    simp [h2]

/-- C9. One run of the sweep leaves exactly the old store restricted to the
records with `now ≤ expiresAt`: a record with `now > expiresAt` is removed, a
record with `now ≤ expiresAt` is still there under the same id with the same
fields, and no record is added, although the loop deletes from the map it
iterates over. (The keys of a `Map` are pairwise different.) -/
theorem sweep_removes_expired (now : Int) (store : Store) (hwf : Store.WF store) :
    sweep now store = store.filter (fun e => decide (now ≤ e.2.expiresAt)) ∧
    (∀ k r, Store.get store k = some r → now > r.expiresAt →
      Store.get (sweep now store) k = none) ∧
    (∀ k r, Store.get store k = some r → now ≤ r.expiresAt →
      Store.get (sweep now store) k = some r) ∧
    (∀ k r, Store.get (sweep now store) k = some r →
      Store.get store k = some r ∧ now ≤ r.expiresAt) := by
  have huniq : ∀ k r d, Store.get store k = some r → (k, d) ∈ store → d = r := by
    intro k r d hget hmem
    have := Store.get_of_mem store hwf k d hmem
    rw [hget] at this
    exact (Option.some.inj this).symm
  refine ⟨?_, ?_, ?_, ?_⟩
  · rw [sweep_eq]
    apply List.filter_congr
    intro e he
    obtain ⟨k1, d1⟩ := e
    have hmem := mem_deletedKeys now k1 store []
    simp only [List.not_mem_nil, false_or] at hmem
    have hget := Store.get_of_mem store hwf k1 d1 he
    have hiff : k1 ∈ deletedKeys now [] store ↔ now > d1.expiresAt := by
      rw [hmem]
      constructor
      · rintro ⟨d, hd, hx⟩
        rw [huniq k1 d1 d hget hd] at hx
        exact hx
      · intro hx
        exact ⟨d1, he, hx⟩
    by_cases hx : now > d1.expiresAt
    · have hnot : ¬ now ≤ d1.expiresAt := not_le.mpr hx
      simp [hiff.mpr hx, hnot]
    · have hk : k1 ∉ deletedKeys now [] store := fun h => hx (hiff.mp h)
      simp [hk, not_lt.mp hx]
  · intro k r hget hx
    exact (get_sweep now store k).1 ⟨r, Store.get_mem store k r hget, hx⟩
  · intro k r hget hle
    rw [(get_sweep now store k).2 ?_]
    · exact hget
    · rintro ⟨d, hd, hx⟩
      rw [huniq k r d hget hd] at hx
      exact absurd hle (not_le.mpr hx)
  · intro k r hget
    by_cases h : ∃ d, (k, d) ∈ store ∧ now > d.expiresAt
    · rw [(get_sweep now store k).1 h] at hget
      exact absurd hget (by simp)
    · rw [(get_sweep now store k).2 h] at hget
      refine ⟨hget, ?_⟩
      by_contra hx
      exact h ⟨r, Store.get_mem store k r hget, not_le.mp hx⟩

/-- C9, at a store with an expired pending record, a live pending record and
an expired verified record. -/
theorem sweep_removes_expired_witness :
    sweep 500 [("id-1", ⟨"123456", JsVal.str "a@x.com", 400, false⟩),
        ("id-2", ⟨"654321", JsVal.str "b@x.com", 900, false⟩),
        ("id-3", ⟨"111111", JsVal.str "c@x.com", 100, true⟩)]
      = [("id-2", ⟨"654321", JsVal.str "b@x.com", 900, false⟩)] :=
  (sweep_removes_expired 500 [("id-1", ⟨"123456", JsVal.str "a@x.com", 400, false⟩),
        ("id-2", ⟨"654321", JsVal.str "b@x.com", 900, false⟩),
        ("id-3", ⟨"111111", JsVal.str "c@x.com", 100, true⟩)]
    (by unfold Store.WF; decide)).1.trans (by decide)

/-! ## Access after expiry -/

/-- C3 as stated fails: a submit-contact request on an expired record that is
not verified does not delete it. -/
theorem expired_access_counterexample :
    ¬ (∀ (store : Store) (id : String) (r : OtpRecord) (now : Int)
        (name email subject message : JsVal) (transport : Bool),
        Store.get store id = some r → now > r.expiresAt →
        (JsVal.str id).truthy = true → name.truthy = true → email.truthy = true →
        subject.truthy = true → message.truthy = true →
        Store.get (submitContact store (JsVal.str id) name email subject message now
          transport).store id = none) := by
  intro h
  have h1 := h [("id-1", ⟨"123456", JsVal.str "a@x.com", 1000, false⟩)] "id-1"
    ⟨"123456", JsVal.str "a@x.com", 1000, false⟩ 2000
    (JsVal.str "Asha") (JsVal.str "a@x.com") (JsVal.str "Quote") (JsVal.str "Hello") true
    (by decide) (by decide) (by decide) (by decide) (by decide) (by decide) (by decide)
  exact absurd h1 (by decide)

/-- C3, amended. For a record `r` under `id` and a time `now > r.expiresAt`:
a verify-otp request naming `id` (fields truthy), a submit-contact request
naming `id` (five fields truthy) when `r` is verified, and a run of the sweep
each leave a store with no record under `id`. On any store with no record
under `id`, a verify-otp request naming `id` is rejected with
400 "Invalid or expired OTP" and a submit-contact request naming `id` with
400 "OTP not verified", the store staying as it is. -/
theorem expired_access_deletes (store : Store) (id : String) (r : OtpRecord) (now : Int)
    (hget : Store.get store id = some r) (hexp : now > r.expiresAt) :
    (∀ otp : JsVal, (JsVal.str id).truthy = true → otp.truthy = true →
      verifyOtp store (JsVal.str id) otp now
        = ⟨Response.failure 400 "OTP has expired", Store.delete store id, []⟩ ∧
      Store.get (verifyOtp store (JsVal.str id) otp now).store id = none) ∧
    (r.verified = true →
      ∀ (name email subject message : JsVal) (transport : Bool),
      (JsVal.str id).truthy = true → name.truthy = true → email.truthy = true →
      subject.truthy = true → message.truthy = true →
      submitContact store (JsVal.str id) name email subject message now transport
        = ⟨Response.failure 400 "OTP has expired", Store.delete store id, []⟩ ∧
      Store.get (submitContact store (JsVal.str id) name email subject message now
        transport).store id = none) ∧
    Store.get (sweep now store) id = none ∧
    (∀ later : Store, Store.get later id = none → (JsVal.str id).truthy = true →
      (∀ (otp : JsVal) (now2 : Int), otp.truthy = true →
        verifyOtp later (JsVal.str id) otp now2
          = ⟨Response.failure 400 "Invalid or expired OTP", later, []⟩) ∧
      (∀ (name email subject message : JsVal) (now2 : Int) (transport : Bool),
        name.truthy = true → email.truthy = true → subject.truthy = true →
        message.truthy = true →
        submitContact later (JsVal.str id) name email subject message now2 transport
          = ⟨Response.failure 400 "OTP not verified", later, []⟩)) := by
  refine ⟨?_, ?_, ?_, ?_⟩
  · intro otp hid hotp
    have h1 : verifyOtp store (JsVal.str id) otp now
        = ⟨Response.failure 400 "OTP has expired", Store.delete store id, []⟩ := by
      simp [verifyOtp, hid, hotp, hget, hexp]
    rw [h1]
    exact ⟨rfl, Store.get_delete_self store id⟩
  · intro hver name email subject message transport hid hn he hs hm
    have h1 : submitContact store (JsVal.str id) name email subject message now transport
        = ⟨Response.failure 400 "OTP has expired", Store.delete store id, []⟩ := by
      simp [submitContact, hid, hn, he, hs, hm, hget, hver, hexp]
    rw [h1]
    exact ⟨rfl, Store.get_delete_self store id⟩
  · exact (get_sweep now store id).1 ⟨r, Store.get_mem store id r hget, hexp⟩
  · intro later hnone hid
    refine ⟨?_, ?_⟩
    · intro otp now2 hotp
      exact verifyOtp_absent later id otp now2 hnone hid hotp
    · intro name email subject message now2 transport hn he hs hm
      exact submitContact_absent later id name email subject message now2 transport
        hnone hid hn he hs hm

/-- C3 amended, at a store with one expired pending record. -/
theorem expired_access_deletes_witness :
    Store.get (sweep 2000 [("id-1", ⟨"123456", JsVal.str "a@x.com", 1000, false⟩)]) "id-1"
      = none :=
  (expired_access_deletes [("id-1", ⟨"123456", JsVal.str "a@x.com", 1000, false⟩)] "id-1"
    ⟨"123456", JsVal.str "a@x.com", 1000, false⟩ 2000 (by decide) (by decide)).2.2.1

/-! ## The verified flag along runs -/

theorem run_append (s : Store) (a b : List Step) :
    run s (a ++ b) = run (run s a) b := by
  induction a generalizing s with
  | nil => rfl
  | cons st rest ih => simp [run, ih]

theorem FreshRun_append (s : Store) (a b : List Step) :
    FreshRun s (a ++ b) ↔ FreshRun s a ∧ FreshRun (run s a) b := by
  induction a generalizing s with
  | nil => simp [FreshRun, run]
  | cons st rest ih => simp [FreshRun, run, ih, and_assoc]

/-- What a step does to the record under `id`: it leaves it as it is, or
removes it, or (send-otp generating `id`) creates it unverified where there
was none, or (verify-otp naming `id` with the stored code, in time) marks it
verified. -/
theorem step_get (s : Store) (st : Step) (id : String) (hfresh : Step.fresh s st) :
    Store.get (Step.apply s st) id = Store.get s id ∨
    Store.get (Step.apply s st) id = none ∨
    (Store.get s id = none ∧
      ∃ r2, Store.get (Step.apply s st) id = some r2 ∧ r2.verified = false) ∨
    (∃ otp now r, st = Step.verifyOtp (JsVal.str id) (JsVal.str otp) now ∧
      Store.get s id = some r ∧ r.otp = otp ∧ now ≤ r.expiresAt ∧
      Store.get (Step.apply s st) id = some { r with verified := true }) := by
  cases st with
  | sendOtp email r uuid now transport =>
    simp only [Step.fresh] at hfresh
    cases hem : email.truthy
    · left
      simp [Step.apply, sendOtp, hem]
    · have hstore : (sendOtp s email r uuid now transport).store
          = Store.set s uuid ⟨generateOTP r, email, now + 600000, false⟩ := by
        cases transport <;> simp [sendOtp, hem, sendOTPEmail]
      by_cases hk : id = uuid
      · subst hk
        right; right; left
        refine ⟨hfresh, ⟨generateOTP r, email, now + 600000, false⟩, ?_, rfl⟩
        simp only [Step.apply]
        rw [hstore, Store.get_set_self]
      · left
        simp only [Step.apply]
        rw [hstore, Store.get_set_other s uuid id _ hk]
  | verifyOtp otpId otp now =>
    simp only [Step.apply]
    cases hid : otpId.truthy
    · left; simp [verifyOtp, hid]
    cases hotp : otp.truthy
    · left; simp [verifyOtp, hotp]
    cases otpId with
    | str k =>
      cases hget : Store.get s k with
      | none => left; simp [verifyOtp, hid, hotp, hget]
      | some d =>
        by_cases hexp : now > d.expiresAt
        · have h1 : (verifyOtp s (JsVal.str k) otp now).store = Store.delete s k := by
            simp [verifyOtp, hid, hotp, hget, hexp]
          rw [h1]
          by_cases hk : id = k
          · right; left
            rw [hk]; exact Store.get_delete_self s k
          · left
            exact Store.get_delete_other s k id hk
        · cases hs : JsVal.strictEq d.otp otp
          · left; simp [verifyOtp, hid, hotp, hget, hexp, hs]
          · have h1 : (verifyOtp s (JsVal.str k) otp now).store
                = Store.set s k { d with verified := true } := by
              simp [verifyOtp, hid, hotp, hget, hexp, hs]
            rw [h1]
            by_cases hk : id = k
            · subst hk
              right; right; right
              have hotpeq : otp = JsVal.str d.otp := by
                cases otp <;> simp [JsVal.strictEq] at hs
                simp [hs]
              exact ⟨d.otp, now, d, by rw [hotpeq], hget, rfl, not_lt.mp hexp,
                Store.get_set_self s id _⟩
            · left
              exact Store.get_set_other s k id _ hk
    | _ => left; simp [verifyOtp, hid, hotp]
  | submitContact otpId name email subject message now transport =>
    simp only [Step.apply]
    by_cases hall : (!otpId.truthy || !name.truthy || !email.truthy || !subject.truthy
        || !message.truthy) = true
    · left; simp only [submitContact, hall, if_true]
    · cases otpId with
      | str k =>
        cases hget : Store.get s k with
        | none => left; simp [submitContact, hall, hget]
        | some d =>
          cases hver : d.verified
          · left; simp [submitContact, hall, hget, hver]
          · by_cases hexp : now > d.expiresAt
            · have h1 : (submitContact s (JsVal.str k) name email subject message now
                  transport).store = Store.delete s k := by
                simp [submitContact, hall, hget, hver, hexp]
              rw [h1]
              by_cases hk : id = k
              · right; left
                rw [hk]; exact Store.get_delete_self s k
              · left
                exact Store.get_delete_other s k id hk
            · cases hsend : sendContactEmail transport name email subject message with
              | none => left; simp [submitContact, hall, hget, hver, hexp, hsend]
              | some p =>
                obtain ⟨b, mail⟩ := p
                cases b
                · left; simp [submitContact, hall, hget, hver, hexp, hsend]
                · have h1 : (submitContact s (JsVal.str k) name email subject message now
                      transport).store = Store.delete s k := by
                    simp [submitContact, hall, hget, hver, hexp, hsend]
                  rw [h1]
                  by_cases hk : id = k
                  · right; left
                    rw [hk]; exact Store.get_delete_self s k
                  · left
                    exact Store.get_delete_other s k id hk
      | _ => left; simp [submitContact, hall]
  | submitEnquiry name email phone product message transport =>
    left
    simp only [Step.apply, submitEnquiry]
    split
    · rfl
    · split <;> rfl
  | sweep now =>
    simp only [Step.apply]
    by_cases h : ∃ d, (id, d) ∈ s ∧ now > d.expiresAt
    · right; left
      exact (get_sweep now s id).1 h
    · left
      exact (get_sweep now s id).2 h

/-- C4. With the five operations as steps and every id generated by send-otp
new to the store: (1) a step keeps a verified record verified as long as a
record stays under its id; (2) if the record under `id` is verified after a
step and was not before, the step is a verify-otp request naming `id` with the
stored code at a time `now ≤ expiresAt`; (3) so, in a state reached from the
empty store, a verified record under `id` comes from such a verify-otp step of
the run, and after every number of later steps the record under `id` is there
and verified. -/
theorem verified_only_by_verify :
    (∀ (s : Store) (st : Step) (id : String) (r r2 : OtpRecord), Step.fresh s st →
      Store.get s id = some r → r.verified = true →
      Store.get (Step.apply s st) id = some r2 → r2.verified = true) ∧
    (∀ (s : Store) (st : Step) (id : String) (r2 : OtpRecord), Step.fresh s st →
      Store.get (Step.apply s st) id = some r2 → r2.verified = true →
      (¬ ∃ r, Store.get s id = some r ∧ r.verified = true) →
      ∃ otp now r, st = Step.verifyOtp (JsVal.str id) (JsVal.str otp) now ∧
        Store.get s id = some r ∧ r.otp = otp ∧ now ≤ r.expiresAt) ∧
    (∀ (steps : List Step) (id : String) (r : OtpRecord), FreshRun [] steps →
      Store.get (run [] steps) id = some r → r.verified = true →
      ∃ pre otp now post r0,
        steps = pre ++ Step.verifyOtp (JsVal.str id) (JsVal.str otp) now :: post ∧
        Store.get (run [] pre) id = some r0 ∧ r0.otp = otp ∧ now ≤ r0.expiresAt ∧
        ∀ n, ∃ r1,
          Store.get (run [] (pre ++ Step.verifyOtp (JsVal.str id) (JsVal.str otp) now
            :: post.take n)) id = some r1 ∧ r1.verified = true) := by
  have hone : ∀ (s : Store) (st : Step) (id : String) (r r2 : OtpRecord),
      Step.fresh s st → Store.get s id = some r → r.verified = true →
      Store.get (Step.apply s st) id = some r2 → r2.verified = true := by
    intro s st id r r2 hfresh hget hver hget2
    rcases step_get s st id hfresh with h | h | ⟨h, _⟩ | ⟨otp, now, r0, _, h0, _, _, h⟩
    · rw [h, hget] at hget2
      rw [← Option.some.inj hget2]; exact hver
    · rw [h] at hget2; exact absurd hget2 (by simp)
    · rw [h] at hget; exact absurd hget (by simp)
    · rw [h] at hget2
      rw [← Option.some.inj hget2]
  have htwo : ∀ (s : Store) (st : Step) (id : String) (r2 : OtpRecord),
      Step.fresh s st → Store.get (Step.apply s st) id = some r2 → r2.verified = true →
      (¬ ∃ r, Store.get s id = some r ∧ r.verified = true) →
      ∃ otp now r, st = Step.verifyOtp (JsVal.str id) (JsVal.str otp) now ∧
        Store.get s id = some r ∧ r.otp = otp ∧ now ≤ r.expiresAt := by
    intro s st id r2 hfresh hget2 hver2 hnot
    rcases step_get s st id hfresh with h | h | ⟨_, r3, h, h3⟩ | ⟨otp, now, r0, hst, h0, ho, hle, _⟩
    · rw [h] at hget2
      exact absurd ⟨r2, hget2, hver2⟩ hnot
    · rw [h] at hget2; exact absurd hget2 (by simp)
    · rw [h] at hget2
      rw [Option.some.inj hget2, hver2] at h3
      exact absurd h3 (by simp)
    · exact ⟨otp, now, r0, hst, h0, ho, hle⟩
  refine ⟨hone, htwo, ?_⟩
  intro steps
  induction steps using List.reverseRecOn with
  | nil =>
    intro id r _ hget _
    simp [run, Store.get] at hget
  | append_singleton steps st ih =>
    intro id r hfresh hget hver
    rw [FreshRun_append] at hfresh
    obtain ⟨hfr, hst, _⟩ := hfresh
    have hrun : run [] (steps ++ [st]) = Step.apply (run [] steps) st := by
      rw [run_append]; rfl
    rw [hrun] at hget
    by_cases hbefore : ∃ r0, Store.get (run [] steps) id = some r0 ∧ r0.verified = true
    · obtain ⟨r0, hget0, hver0⟩ := hbefore
      obtain ⟨pre, otp, now, post, r1, hsteps, hpre, hotp, hle, hkeep⟩ :=
        ih id r0 hfr hget0 hver0
      refine ⟨pre, otp, now, post ++ [st], r1, ?_, hpre, hotp, hle, ?_⟩
      · rw [hsteps]; simp
      · intro n
        by_cases hn : n ≤ post.length
        · rw [List.take_append_of_le_length hn]
          exact hkeep n
        · have hlen : (post ++ [st]).length ≤ n := by
            simp only [List.length_append, List.length_singleton]
            omega
          rw [List.take_of_length_le hlen]
          refine ⟨r, ?_, hver⟩
          have : pre ++ Step.verifyOtp (JsVal.str id) (JsVal.str otp) now :: (post ++ [st])
              = steps ++ [st] := by
            rw [hsteps]; simp
          rw [this, hrun]
          exact hget
    · obtain ⟨otp, now, r0, hstep, hget0, hotp, hle⟩ :=
        htwo (run [] steps) st id r hst hget hver hbefore
      refine ⟨steps, otp, now, [], r0, ?_, hget0, hotp, hle, ?_⟩
      · rw [hstep]
      · intro n
        refine ⟨r, ?_, hver⟩
        rw [List.take_nil, ← hstep, hrun]
        exact hget

/-! ## `generateOTP` -/

theorem toDigits_six (n : Nat) (h1 : 100000 ≤ n) (h2 : n < 1000000) :
    Nat.toDigits 10 n
      = [Nat.digitChar (n / 100000), Nat.digitChar (n / 10000 % 10),
          Nat.digitChar (n / 1000 % 10), Nat.digitChar (n / 100 % 10),
          Nat.digitChar (n / 10 % 10), Nat.digitChar (n % 10)] := by
  have hfuel : n + 1 = (n - 5) + 1 + 1 + 1 + 1 + 1 + 1 := by omega
  have e1 : n / 10 ≠ 0 := by omega
  have e2 : n / 10 / 10 ≠ 0 := by omega
  have e3 : n / 10 / 10 / 10 ≠ 0 := by omega
  have e4 : n / 10 / 10 / 10 / 10 ≠ 0 := by omega
  have e5 : n / 10 / 10 / 10 / 10 / 10 ≠ 0 := by omega
  have e6 : n / 10 / 10 / 10 / 10 / 10 / 10 = 0 := by omega
  have d2 : n / 10 / 10 = n / 100 := by omega
  have d3 : n / 10 / 10 / 10 = n / 1000 := by omega
  have d4 : n / 10 / 10 / 10 / 10 = n / 10000 := by omega
  have d5 : n / 10 / 10 / 10 / 10 / 10 = n / 100000 := by omega
  have d6 : n / 100000 % 10 = n / 100000 := by omega
  rw [Nat.toDigits, hfuel]
  simp only [Nat.toDigitsCore, e1, e2, e3, e4, e5, e6, if_true, if_false]
  rw [d5, d4, d3, d2, d6]

theorem digitChar_isDigit : ∀ d, d < 10 → (Nat.digitChar d).isDigit = true := by
  decide

theorem digitChar_ne_zero : ∀ d, d < 10 → 1 ≤ d → Nat.digitChar d ≠ '0' := by
  decide

/-! ### Rounding to a double -/

theorem roundHalfEven_cases (q : ℚ) :
    (roundHalfEven q = ⌊q⌋ ∧ q - ⌊q⌋ ≤ 1 / 2) ∨
    (roundHalfEven q = ⌊q⌋ + 1 ∧ 1 / 2 ≤ q - ⌊q⌋) := by
  unfold roundHalfEven
  by_cases h1 : q - ⌊q⌋ < 1 / 2
  · left; simp only [h1, if_true]; exact ⟨trivial, le_of_lt h1⟩
  · by_cases h2 : 1 / 2 < q - ⌊q⌋
    · right; simp only [h1, h2, if_true, if_false]; exact ⟨trivial, le_of_lt h2⟩
    · have heq : q - ⌊q⌋ = 1 / 2 := le_antisymm (not_lt.mp h2) (not_lt.mp h1)
      by_cases h3 : ⌊q⌋ % 2 = 0
      · left; simp only [h1, h2, h3, if_true, if_false]; exact ⟨trivial, le_of_eq heq⟩
      · right; simp only [h1, h2, h3, if_false]; exact ⟨trivial, le_of_eq heq.symm⟩

theorem roundHalfEven_le (q : ℚ) (m : ℤ) (h : q ≤ m) : roundHalfEven q ≤ m := by
  have hfl : ⌊q⌋ ≤ m := Int.floor_le_iff.mpr (by linarith)
  rcases roundHalfEven_cases q with ⟨h1, _⟩ | ⟨h1, h2⟩
  · rw [h1]; exact hfl
  · rw [h1]
    by_contra hc
    have hm : m = ⌊q⌋ := by omega
    have : q - ⌊q⌋ ≤ 0 := by rw [← hm]; linarith
    linarith

theorem roundHalfEven_ge (q : ℚ) (m : ℤ) (h : (m : ℚ) ≤ q) : m ≤ roundHalfEven q := by
  have hfl : m ≤ ⌊q⌋ := Int.le_floor.mpr h
  rcases roundHalfEven_cases q with ⟨h1, _⟩ | ⟨h1, _⟩
  · rw [h1]; exact hfl
  · rw [h1]; omega

theorem roundHalfEven_le_of_lt_half (q : ℚ) (m : ℤ) (h : q < m + 1 / 2) :
    roundHalfEven q ≤ m := by
  have hfl : ⌊q⌋ ≤ m := by
    have : ⌊q⌋ < m + 1 := Int.floor_lt.mpr (by push_cast; linarith)
    omega
  rcases roundHalfEven_cases q with ⟨h1, _⟩ | ⟨h1, h2⟩
  · rw [h1]; exact hfl
  · rw [h1]
    by_contra hc
    have hm : m = ⌊q⌋ := by omega
    rw [hm] at h
    linarith

theorem roundHalfEven_ge_of_gt_half (q : ℚ) (m : ℤ) (h : (m : ℚ) - 1 / 2 < q) :
    m ≤ roundHalfEven q := by
  have hq : q < ⌊q⌋ + 1 := Int.lt_floor_add_one q
  rcases roundHalfEven_cases q with ⟨h1, h2⟩ | ⟨h1, _⟩
  · rw [h1]
    by_contra hc
    have hm : (⌊q⌋ : ℚ) + 1 ≤ m := by exact_mod_cast (by omega : ⌊q⌋ + 1 ≤ m)
    linarith
  · rw [h1]
    by_contra hc
    have hm : (⌊q⌋ : ℚ) + 2 ≤ m := by exact_mod_cast (by omega : ⌊q⌋ + 2 ≤ m)
    linarith

theorem ulp_pos (x : ℚ) : 0 < ulp x := zpow_pos (by norm_num) _

theorem binade_le (x : ℚ) (k : ℤ) (hx : |x| < 2 ^ (k + 1)) (hk : -1022 ≤ k) :
    binade x ≤ k := by
  unfold binade
  split
  · exact hk
  · rename_i hne
    have hpos : 0 < |x| := abs_pos.mpr hne
    have hlog : Int.log 2 |x| < k + 1 :=
      (Int.lt_zpow_iff_log_lt (by norm_num) hpos).mp (by exact_mod_cast hx)
    exact max_le (by omega) hk

theorem binade_eq (x : ℚ) (k : ℤ) (h1 : 2 ^ k ≤ |x|) (h2 : |x| < 2 ^ (k + 1))
    (hk : -1022 ≤ k) : binade x = k := by
  have hle := binade_le x k h2 hk
  have hpos : 0 < |x| := lt_of_lt_of_le (zpow_pos (by norm_num) k) h1
  have hne : x ≠ 0 := abs_pos.mp hpos
  have hlog : k ≤ Int.log 2 |x| :=
    (Int.zpow_le_iff_le_log (by norm_num) hpos).mp (by exact_mod_cast h1)
  have hge : k ≤ binade x := by
    unfold binade
    rw [if_neg hne]
    exact le_max_of_le_left hlog
  omega

/-- A multiple of `2 ^ (k - 52)` is a multiple of the spacing of the doubles
around any `x` below `2 ^ (k + 1)`. -/
theorem multiple_of_ulp (x c : ℚ) (k : ℤ) (hx : |x| < 2 ^ (k + 1)) (hk : -1022 ≤ k)
    (hc : ∃ m : ℤ, c = m * 2 ^ (k - 52)) : ∃ m : ℤ, c = m * ulp x := by
  obtain ⟨m, hm⟩ := hc
  have hb := binade_le x k hx hk
  obtain ⟨n, hn⟩ : ∃ n : ℕ, k - binade x = n := ⟨(k - binade x).toNat, by omega⟩
  refine ⟨m * 2 ^ n, ?_⟩
  have hsplit : (2 : ℚ) ^ (k - 52) = 2 ^ n * 2 ^ (binade x - 52) := by
    rw [← zpow_natCast, ← zpow_add₀ (by norm_num : (2 : ℚ) ≠ 0)]
    congr 1
    omega
  rw [hm, hsplit, ulp]
  push_cast
  ring

theorem roundDouble_le_of_le (x c : ℚ) (k : ℤ) (hx : |x| < 2 ^ (k + 1)) (hk : -1022 ≤ k)
    (hc : ∃ m : ℤ, c = m * 2 ^ (k - 52)) (h : x ≤ c) : roundDouble x ≤ c := by
  obtain ⟨m, hm⟩ := multiple_of_ulp x c k hx hk hc
  have hu := ulp_pos x
  have hq : x / ulp x ≤ m := by
    rw [div_le_iff₀ hu, ← hm]; exact h
  have := roundHalfEven_le _ m hq
  unfold roundDouble
  rw [hm]
  exact mul_le_mul_of_nonneg_right (by exact_mod_cast this) (le_of_lt hu)

theorem roundDouble_ge_of_ge (x c : ℚ) (k : ℤ) (hx : |x| < 2 ^ (k + 1)) (hk : -1022 ≤ k)
    (hc : ∃ m : ℤ, c = m * 2 ^ (k - 52)) (h : c ≤ x) : c ≤ roundDouble x := by
  obtain ⟨m, hm⟩ := multiple_of_ulp x c k hx hk hc
  have hu := ulp_pos x
  have hq : (m : ℚ) ≤ x / ulp x := by
    rw [le_div_iff₀ hu, ← hm]; exact h
  have := roundHalfEven_ge _ m hq
  unfold roundDouble
  rw [hm]
  exact mul_le_mul_of_nonneg_right (by exact_mod_cast this) (le_of_lt hu)

/-- Rounding leaves a double as it is. -/
theorem roundDouble_exact (x : ℚ) (m j : ℤ) (hm : |m| < 2 ^ 53) (hj : -1074 ≤ j)
    (hx : x = m * 2 ^ j) : roundDouble x = x := by
  have hlt : |x| < 2 ^ (j + 52 + 1) := by
    rw [hx, abs_mul, abs_of_pos (zpow_pos (by norm_num : (0 : ℚ) < 2) j)]
    have h2 : (2 : ℚ) ^ (j + 52 + 1) = 2 ^ 53 * 2 ^ j := by
      rw [show j + 52 + 1 = 53 + j by ring, zpow_add₀ (by norm_num : (2 : ℚ) ≠ 0)]
      norm_num
    rw [h2]
    have hmq : |(m : ℚ)| < 2 ^ 53 := by exact_mod_cast hm
    exact mul_lt_mul_of_pos_right hmq (zpow_pos (by norm_num) j)
  have hc : ∃ n : ℤ, x = n * 2 ^ (j + 52 - 52) := ⟨m, by rw [hx]; congr 2; ring⟩
  exact le_antisymm
    (roundDouble_le_of_le x x (j + 52) hlt (by omega) hc (le_refl x))
    (roundDouble_ge_of_ge x x (j + 52) hlt (by omega) hc (le_refl x))

/-- Rounding in a known binade. -/
theorem roundDouble_eq (x : ℚ) (k : ℤ) (h1 : 2 ^ k ≤ |x|) (h2 : |x| < 2 ^ (k + 1))
    (hk : -1022 ≤ k) :
    roundDouble x = roundHalfEven (x / 2 ^ (k - 52)) * 2 ^ (k - 52) := by
  unfold roundDouble ulp
  rw [binade_eq x k h1 h2 hk]

/-- A double below 1 is at most `1 - 2 ^ (-53)`. -/
theorem double_lt_one (r : ℚ) (hd : IsDouble r) (h1 : r < 1) : r ≤ 1 - 1 / 2 ^ 53 := by
  obtain ⟨m, j, hm, _, _, hr⟩ := hd
  have hmle : m ≤ 2 ^ 53 - 1 := by
    have := (abs_lt.mp hm).2
    omega
  by_cases hj : j ≤ -54
  · have hpow : (2 : ℚ) ^ j ≤ 2 ^ (-54 : ℤ) := zpow_le_zpow_right₀ (by norm_num) hj
    have hpos : (0 : ℚ) < 2 ^ j := zpow_pos (by norm_num) j
    have hmq : (m : ℚ) ≤ 2 ^ 53 - 1 := by exact_mod_cast hmle
    have h54 : (2 : ℚ) ^ (-54 : ℤ) = 1 / 2 ^ 54 := by norm_num
    rw [h54] at hpow
    have : r ≤ (2 ^ 53 - 1) * (1 / 2 ^ 54) := by
      rw [hr]
      calc (m : ℚ) * 2 ^ j ≤ (2 ^ 53 - 1) * 2 ^ j :=
            mul_le_mul_of_nonneg_right hmq (le_of_lt hpos)
        _ ≤ (2 ^ 53 - 1) * (1 / 2 ^ 54) :=
            mul_le_mul_of_nonneg_left hpow (by norm_num)
    norm_num at this ⊢
    linarith
  · obtain ⟨n, hn⟩ : ∃ n : ℕ, j + 53 = n := ⟨(j + 53).toNat, by omega⟩
    have hpow : (2 : ℚ) ^ j = 2 ^ n / 2 ^ 53 := by
      have : j = (n : ℤ) + (-53) := by omega
      rw [this, zpow_add₀ (by norm_num : (2 : ℚ) ≠ 0), zpow_natCast]
      norm_num
      ring
    rw [hr, hpow] at h1 ⊢
    have hlt : ((m * 2 ^ n : ℤ) : ℚ) < ((2 ^ 53 : ℤ) : ℚ) := by
      push_cast
      have h := h1
      rw [← mul_div_assoc, div_lt_one (by norm_num)] at h
      exact h
    have hlt2 : m * 2 ^ n < (2 ^ 53 : ℤ) := by exact_mod_cast hlt
    have hle2 : m * 2 ^ n ≤ (2 ^ 53 : ℤ) - 1 := by omega
    have hle3 : ((m * 2 ^ n : ℤ) : ℚ) ≤ ((2 ^ 53 - 1 : ℤ) : ℚ) := by exact_mod_cast hle2
    push_cast at hle3
    rw [← mul_div_assoc, div_le_iff₀ (by norm_num)]
    norm_num at hle3 ⊢
    linarith

/-- The product `Math.random() * 900000` as a double. -/
theorem product_range (r : ℚ) (h0 : 0 ≤ r) (h1 : r ≤ 1 - 1 / 2 ^ 53) :
    0 ≤ roundDouble (r * 900000) ∧ roundDouble (r * 900000) ≤ 900000 - 1 / 2 ^ 33 := by
  have hp0 : 0 ≤ r * 900000 := by positivity
  have hp1 : r * 900000 ≤ 900000 - 900000 / 2 ^ 53 := by linarith
  have habs : |r * 900000| < 2 ^ ((19 : ℤ) + 1) := by
    rw [abs_of_nonneg hp0]
    norm_num at hp1 ⊢
    linarith
  have hstep : (2 : ℚ) ^ ((19 : ℤ) - 52) = 1 / 2 ^ 33 := by norm_num
  constructor
  · exact roundDouble_ge_of_ge _ 0 19 habs (by norm_num) ⟨0, by simp⟩ hp0
  · by_cases hc : r * 900000 ≤ 900000 - 1 / 2 ^ 33
    · refine roundDouble_le_of_le _ _ 19 habs (by norm_num) ⟨900000 * 2 ^ 33 - 1, ?_⟩ hc
      rw [hstep]
      push_cast
      norm_num
    · have hgt : 900000 - 1 / 2 ^ 33 < r * 900000 := not_le.mp hc
      have hlow : (2 : ℚ) ^ (19 : ℤ) ≤ |r * 900000| := by
        rw [abs_of_nonneg hp0]
        norm_num at hgt ⊢
        linarith
      rw [roundDouble_eq _ 19 hlow habs (by norm_num), hstep]
      have hrhe : roundHalfEven (r * 900000 / (1 / 2 ^ 33)) ≤ 900000 * 2 ^ 33 - 1 := by
        apply roundHalfEven_le_of_lt_half
        push_cast
        norm_num at hp1 ⊢
        linarith
      have hq : (roundHalfEven (r * 900000 / (1 / 2 ^ 33)) : ℚ) ≤ 900000 * 2 ^ 33 - 1 := by
        exact_mod_cast hrhe
      norm_num at hq ⊢
      linarith

/-- The sum `100000 + (that product)` as a double, and its floor. -/
theorem floor_otp_range (r : ℚ) (hd : IsDouble r) (h0 : 0 ≤ r) (h1 : r < 1) :
    ∃ n : Nat, ⌊roundDouble (100000 + roundDouble (r * 900000))⌋ = (n : Int) ∧
      100000 ≤ n ∧ n ≤ 999999 := by
  obtain ⟨hy0, hy1⟩ := product_range r h0 (double_lt_one r hd h1)
  generalize roundDouble (r * 900000) = y at hy0 hy1
  have hz0 : (100000 : ℚ) ≤ 100000 + y := by linarith
  have hz1 : 100000 + y ≤ 1000000 - 1 / 2 ^ 33 := by linarith
  have habs : |100000 + y| < 2 ^ ((19 : ℤ) + 1) := by
    rw [abs_of_nonneg (by linarith)]
    norm_num at hz1 ⊢
    linarith
  have hstep : (2 : ℚ) ^ ((19 : ℤ) - 52) = 1 / 2 ^ 33 := by norm_num
  have hlo : (100000 : ℚ) ≤ roundDouble (100000 + y) := by
    refine roundDouble_ge_of_ge _ _ 19 habs (by norm_num) ⟨100000 * 2 ^ 33, ?_⟩ hz0
    rw [hstep]
    push_cast
    norm_num
  have hhi : roundDouble (100000 + y) ≤ 1000000 - 1 / 2 ^ 33 := by
    refine roundDouble_le_of_le _ _ 19 habs (by norm_num) ⟨1000000 * 2 ^ 33 - 1, ?_⟩ hz1
    rw [hstep]
    push_cast
    norm_num
  generalize roundDouble (100000 + y) = z at hlo hhi
  have hfl0 : (100000 : Int) ≤ ⌊z⌋ := Int.le_floor.mpr (by push_cast; exact hlo)
  have hfl1 : ⌊z⌋ < (1000000 : Int) := by
    apply Int.floor_lt.mpr
    push_cast
    norm_num at hhi ⊢
    linarith
  refine ⟨⌊z⌋.toNat, ?_, ?_, ?_⟩
  · rw [Int.toNat_of_nonneg (by omega)]
  · omega
  · omega

/-- Every integer of the range is the floor for some double draw: one of the
form `k / 2 ^ 30`, for which neither operation rounds. -/
theorem floor_otp_onto (n : Nat) (hlo : 100000 ≤ n) (hhi : n ≤ 999999) :
    ∃ q : ℚ, IsDouble q ∧ 0 ≤ q ∧ q < 1 ∧
      ⌊roundDouble (100000 + roundDouble (q * 900000))⌋ = (n : Int) := by
  have hnq0 : (100000 : ℚ) ≤ (n : ℚ) := by exact_mod_cast hlo
  have hnq1 : (n : ℚ) ≤ 999999 := by exact_mod_cast hhi
  obtain ⟨k, hk⟩ : ∃ k : ℤ, k = ⌈((n : ℚ) - 100000) * 2 ^ 30 / 900000⌉ := ⟨_, rfl⟩
  have hk1 : ((n : ℚ) - 100000) * 2 ^ 30 / 900000 ≤ k := by rw [hk]; exact Int.le_ceil _
  have hk2 : (k : ℚ) < ((n : ℚ) - 100000) * 2 ^ 30 / 900000 + 1 := by
    rw [hk]; exact Int.ceil_lt_add_one _
  have hk0q : (0 : ℚ) ≤ k := le_trans (by apply div_nonneg <;> linarith) hk1
  have hk0 : 0 ≤ k := by exact_mod_cast hk0q
  have hk3q : (k : ℚ) < 2 ^ 30 := by
    have : ((n : ℚ) - 100000) * 2 ^ 30 / 900000 ≤ 899999 * 2 ^ 30 / 900000 := by
      apply div_le_div_of_nonneg_right _ (by norm_num)
      apply mul_le_mul_of_nonneg_right _ (by norm_num)
      linarith
    norm_num at this hk2 ⊢
    linarith
  have hk3 : k < 2 ^ 30 := by exact_mod_cast hk3q
  have hpow : (2 : ℚ) ^ (-30 : ℤ) = 1 / 2 ^ 30 := by norm_num
  have hprod : roundDouble ((k : ℚ) / 2 ^ 30 * 900000) = (k : ℚ) / 2 ^ 30 * 900000 := by
    apply roundDouble_exact _ (k * 900000) (-30)
    · rw [abs_of_nonneg (by positivity)]
      omega
    · norm_num
    · rw [hpow]; push_cast; ring
  have hsum : roundDouble (100000 + (k : ℚ) / 2 ^ 30 * 900000)
      = 100000 + (k : ℚ) / 2 ^ 30 * 900000 := by
    apply roundDouble_exact _ (100000 * 2 ^ 30 + k * 900000) (-30)
    · rw [abs_of_nonneg (by positivity)]
      omega
    · norm_num
    · rw [hpow]; push_cast; ring
  refine ⟨(k : ℚ) / 2 ^ 30, ⟨k, -30, ?_, by norm_num, by norm_num, ?_⟩, ?_, ?_, ?_⟩
  · rw [abs_of_nonneg hk0]
    omega
  · rw [hpow]; ring
  · positivity
  · rw [div_lt_one (by norm_num)]; exact hk3q
  · rw [hprod, hsum, Int.floor_eq_iff]
    push_cast
    constructor
    · have := hk1
      rw [div_le_iff₀ (by norm_num)] at this
      norm_num at this ⊢
      linarith
    · have := hk2
      rw [← sub_lt_iff_lt_add, lt_div_iff₀ (by norm_num)] at this
      norm_num at this ⊢
      linarith

/-- The draw one half: no rounding occurs. -/
theorem floor_otp_half :
    ⌊roundDouble (100000 + roundDouble (1 / 2 * 900000))⌋ = ((550000 : Nat) : Int) := by
  have hprod : roundDouble ((1 / 2 : ℚ) * 900000) = 450000 := by
    rw [roundDouble_exact _ 450000 0 (by norm_num) (by norm_num) (by norm_num)]
    norm_num
  have hsum : roundDouble ((100000 : ℚ) + 450000) = 550000 := by
    rw [roundDouble_exact _ 550000 0 (by norm_num) (by norm_num) (by norm_num)]
    norm_num
  rw [hprod, hsum]
  norm_num

/-- The draw `150119987579 / 2 ^ 52`: the product is a double, the sum rounds
up to an integer. -/
theorem floor_otp_rounds_up :
    ⌊roundDouble (100000 + roundDouble (150119987579 / 2 ^ 52 * 900000))⌋
      = ((100030 : Nat) : Int) ∧
    ⌊(100000 : ℚ) + 150119987579 / 2 ^ 52 * 900000⌋ = ((100029 : Nat) : Int) := by
  have hprod : roundDouble ((150119987579 : ℚ) / 2 ^ 52 * 900000)
      = 150119987579 / 2 ^ 52 * 900000 := by
    apply roundDouble_exact _ 8444249301318750 (-48)
    · norm_num
    · norm_num
    · norm_num
  have hsum : roundDouble ((100000 : ℚ) + 150119987579 / 2 ^ 52 * 900000) = 100030 := by
    rw [roundDouble_eq _ 16 (by rw [abs_of_nonneg (by norm_num)]; norm_num)
      (by rw [abs_of_nonneg (by norm_num)]; norm_num) (by norm_num)]
    have hrhe : roundHalfEven (((100000 : ℚ) + 150119987579 / 2 ^ 52 * 900000)
        / 2 ^ ((16 : ℤ) - 52)) = 6874009257902080 := by
      apply le_antisymm
      · apply roundHalfEven_le_of_lt_half
        norm_num
      · apply roundHalfEven_ge_of_gt_half
        norm_num
    rw [hrhe]
    norm_num
  constructor
  · rw [hprod, hsum]
    norm_num
  · rw [Int.floor_eq_iff]
    constructor <;> norm_num

/-! ### The code returned -/

theorem generateOTP_of_floor (r : ℚ) (n : Nat)
    (h : ⌊roundDouble (100000 + roundDouble (r * 900000))⌋ = (n : Int))
    (h1 : 100000 ≤ n) (h2 : n ≤ 999999) :
    generateOTP r = toString n ∧
    (generateOTP r).data
      = [Nat.digitChar (n / 100000), Nat.digitChar (n / 10000 % 10),
          Nat.digitChar (n / 1000 % 10), Nat.digitChar (n / 100 % 10),
          Nat.digitChar (n / 10 % 10), Nat.digitChar (n % 10)] := by
  have hs : generateOTP r = toString n := by
    unfold generateOTP
    rw [h]
    rfl
  refine ⟨hs, ?_⟩
  rw [hs]
  show (Nat.toDigits 10 n) = _
  exact toDigits_six n h1 (by omega)

/-- C10 as stated fails: at the draw `150119987579 / 2 ^ 52`, a double in
`[0, 1)`, the sum rounds up to 100030, so `generateOTP` returns "100030" while
the exact `floor(100000 + r * 900000)` is 100029. -/
theorem generateOTP_exact_floor_counterexample :
    IsDouble (150119987579 / 2 ^ 52) ∧
    (0 : ℚ) ≤ 150119987579 / 2 ^ 52 ∧ (150119987579 / 2 ^ 52 : ℚ) < 1 ∧
    generateOTP (150119987579 / 2 ^ 52) = "100030" ∧
    toString ⌊(100000 : ℚ) + 150119987579 / 2 ^ 52 * 900000⌋ = "100029" ∧
    generateOTP (150119987579 / 2 ^ 52)
      ≠ toString ⌊(100000 : ℚ) + 150119987579 / 2 ^ 52 * 900000⌋ := by
  have hgen : generateOTP (150119987579 / 2 ^ 52) = "100030" :=
    (generateOTP_of_floor _ 100030 floor_otp_rounds_up.1 (by decide) (by decide)).1.trans
      (by decide)
  have hexact : toString ⌊(100000 : ℚ) + 150119987579 / 2 ^ 52 * 900000⌋ = "100029" := by
    rw [floor_otp_rounds_up.2]
    decide
  refine ⟨⟨150119987579, -52, by norm_num, by norm_num, by norm_num, by norm_num⟩,
    by norm_num, by norm_num, hgen, hexact, ?_⟩
  rw [hgen, hexact]
  decide

/-- C10, amended. For a draw `r` that is a double with `0 ≤ r < 1`,
`generateOTP` returns the decimal string of the integer
`floor(fl(100000 + fl(r * 900000)))`, `fl` rounding to the nearest double as
the two operations do; that integer lies in 100000..999999, so the string has
exactly 6 characters, all decimal digits, the first not `0`; and every integer
in 100000..999999 is produced by some double `r` in `[0, 1)`. -/
theorem generateOTP_six_digits (r : ℚ) (hd : IsDouble r) (h0 : 0 ≤ r) (h1 : r < 1) :
    (∃ n : Nat, ⌊roundDouble (100000 + roundDouble (r * 900000))⌋ = (n : Int) ∧
      100000 ≤ n ∧ n ≤ 999999 ∧
      generateOTP r = toString n ∧
      (generateOTP r).data
        = [Nat.digitChar (n / 100000), Nat.digitChar (n / 10000 % 10),
            Nat.digitChar (n / 1000 % 10), Nat.digitChar (n / 100 % 10),
            Nat.digitChar (n / 10 % 10), Nat.digitChar (n % 10)]) ∧
    (generateOTP r).length = 6 ∧
    (∀ c ∈ (generateOTP r).data, c.isDigit = true) ∧
    (generateOTP r).data.head? ≠ some '0' ∧
    (∀ n : Nat, 100000 ≤ n → n ≤ 999999 →
      ∃ q : ℚ, IsDouble q ∧ 0 ≤ q ∧ q < 1 ∧
        ⌊roundDouble (100000 + roundDouble (q * 900000))⌋ = (n : Int) ∧
        generateOTP q = toString n) := by
  obtain ⟨n, hn, hlo, hhi⟩ := floor_otp_range r hd h0 h1
  obtain ⟨hs, hdata⟩ := generateOTP_of_floor r n hn hlo hhi
  refine ⟨⟨n, hn, hlo, hhi, hs, hdata⟩, ?_, ?_, ?_, ?_⟩
  · show (generateOTP r).data.length = 6
    rw [hdata]; rfl
  · intro c hc
    rw [hdata] at hc
    simp only [List.mem_cons, List.mem_singleton, List.not_mem_nil, or_false] at hc
    rcases hc with rfl | rfl | rfl | rfl | rfl | rfl
    · exact digitChar_isDigit _ (by omega)
    · exact digitChar_isDigit _ (Nat.mod_lt _ (by decide))
    · exact digitChar_isDigit _ (Nat.mod_lt _ (by decide))
    · exact digitChar_isDigit _ (Nat.mod_lt _ (by decide))
    · exact digitChar_isDigit _ (Nat.mod_lt _ (by decide))
    · exact digitChar_isDigit _ (Nat.mod_lt _ (by decide))
  · rw [hdata]
    simp only [List.head?_cons, ne_eq, Option.some.injEq]
    exact digitChar_ne_zero _ (by omega) (by omega)
  · intro m hmlo hmhi
    obtain ⟨q, hqd, hq0, hq1, hqfloor⟩ := floor_otp_onto m hmlo hmhi
    exact ⟨q, hqd, hq0, hq1, hqfloor, (generateOTP_of_floor q m hqfloor hmlo hmhi).1⟩

theorem generateOTP_half : generateOTP (1 / 2) = "550000" :=
  (generateOTP_of_floor (1 / 2) 550000 floor_otp_half (by decide) (by decide)).1.trans
    (by decide)

/-- C10 amended, at the draw one half. -/
theorem generateOTP_six_digits_witness :
    IsDouble (1 / 2) ∧ (0 : ℚ) ≤ 1 / 2 ∧ (1 / 2 : ℚ) < 1 ∧
    (generateOTP (1 / 2)).length = 6 :=
  ⟨⟨1, -1, by norm_num, by norm_num, by norm_num, by norm_num⟩, by norm_num, by norm_num,
    (generateOTP_six_digits (1 / 2)
      ⟨1, -1, by norm_num, by norm_num, by norm_num, by norm_num⟩
      (by norm_num) (by norm_num)).2.1⟩

theorem run_cons (s : Store) (st : Step) (rest : List Step) :
    run s (st :: rest) = run (Step.apply s st) rest := rfl

theorem apply_sendOtp (s : Store) (email : JsVal) (r : ℚ) (uuid : String) (now : Int)
    (transport : Bool) :
    Step.apply s (Step.sendOtp email r uuid now transport)
      = (sendOtp s email r uuid now transport).store := rfl

theorem apply_verifyOtp (s : Store) (otpId otp : JsVal) (now : Int) :
    Step.apply s (Step.verifyOtp otpId otp now) = (verifyOtp s otpId otp now).store := rfl

theorem sendOtp_half_store :
    (sendOtp [] (JsVal.str "a@x.com") (1 / 2) "id-1" 1000 true).store
      = [("id-1", ⟨"550000", JsVal.str "a@x.com", 601000, false⟩)] := by
  simp only [sendOtp, sendOTPEmail, generateOTP_half]
  decide

/-- C4, on the run that issues an OTP and verifies it. -/
theorem verified_only_by_verify_witness :
    ∃ pre otp now post r0,
      [Step.sendOtp (JsVal.str "a@x.com") (1 / 2) "id-1" 1000 true,
          Step.verifyOtp (JsVal.str "id-1") (JsVal.str "550000") 2000]
        = pre ++ Step.verifyOtp (JsVal.str "id-1") (JsVal.str otp) now :: post ∧
      Store.get (run [] pre) "id-1" = some r0 ∧ r0.otp = otp ∧ now ≤ r0.expiresAt ∧
      ∀ n, ∃ r1,
        Store.get (run [] (pre ++ Step.verifyOtp (JsVal.str "id-1") (JsVal.str otp) now
          :: post.take n)) "id-1" = some r1 ∧ r1.verified = true :=
  verified_only_by_verify.2.2
    [Step.sendOtp (JsVal.str "a@x.com") (1 / 2) "id-1" 1000 true,
      Step.verifyOtp (JsVal.str "id-1") (JsVal.str "550000") 2000]
    "id-1" ⟨"550000", JsVal.str "a@x.com", 601000, true⟩
    (by simp [FreshRun, Step.fresh, Store.get])
    (by
      rw [run_cons, run_cons, apply_sendOtp, apply_verifyOtp, sendOtp_half_store]
      decide)
    rfl

/-! ## Unique keys are kept -/

theorem Store.WF_delete (s : Store) (k : String) (h : Store.WF s) :
    Store.WF (Store.delete s k) := by
  unfold Store.WF Store.delete at *
  exact List.Nodup.sublist (List.Sublist.map _ (List.filter_sublist s)) h

theorem Store.mem_keys_set (s : Store) (k x : String) (d : OtpRecord)
    (h : x ∈ (Store.set s k d).map Prod.fst) : x = k ∨ x ∈ s.map Prod.fst := by
  induction s with
  | nil => simpa [Store.set] using h
  | cons e rest ih =>
    obtain ⟨k1, d1⟩ := e
    by_cases h1 : k1 = k
    · simp only [Store.set, h1, if_true, List.map_cons, List.mem_cons] at h ⊢
      rcases h with h | h
      · exact Or.inl h
      · exact Or.inr (Or.inr h)
    · simp only [Store.set, h1, if_false, List.map_cons, List.mem_cons] at h ⊢
      rcases h with h | h
      · exact Or.inr (Or.inl h)
      · rcases ih h with h2 | h2
        · exact Or.inl h2
        · exact Or.inr (Or.inr h2)

theorem Store.WF_set (s : Store) (k : String) (d : OtpRecord) (h : Store.WF s) :
    Store.WF (Store.set s k d) := by
  induction s with
  | nil => simp [Store.WF, Store.set]
  | cons e rest ih =>
    obtain ⟨k1, d1⟩ := e
    simp only [Store.WF, List.map_cons, List.nodup_cons] at h
    by_cases h1 : k1 = k
    · subst h1
      simp only [Store.WF, Store.set, if_true, List.map_cons, List.nodup_cons]
      exact h
    · simp only [Store.WF, Store.set, h1, if_false, List.map_cons, List.nodup_cons]
      refine ⟨?_, ih h.2⟩
      intro hmem
      rcases Store.mem_keys_set rest k k1 d hmem with h2 | h2
      · exact h1 h2
      · exact h.1 h2

theorem sweep_WF (now : Int) (s : Store) (h : Store.WF s) : Store.WF (sweep now s) := by
  rw [sweep_eq]
  unfold Store.WF at *
  exact List.Nodup.sublist (List.Sublist.map _ (List.filter_sublist s)) h

/-- Every step keeps the keys of the store pairwise different. -/
theorem step_WF (s : Store) (st : Step) (h : Store.WF s) : Store.WF (Step.apply s st) := by
  cases st with
  | sendOtp email r uuid now transport =>
    simp only [Step.apply, sendOtp]
    split
    · exact h
    · split <;> exact Store.WF_set s uuid _ h
  | verifyOtp otpId otp now =>
    simp only [Step.apply, verifyOtp]
    repeat' split
    all_goals first | exact h | exact Store.WF_delete s _ h | exact Store.WF_set s _ _ h
  | submitContact otpId name email subject message now transport =>
    simp only [Step.apply, submitContact]
    repeat' split
    all_goals first | exact h | exact Store.WF_delete s _ h
  | submitEnquiry name email phone product message transport =>
    simp only [Step.apply, submitEnquiry]
    repeat' split
    all_goals exact h
  | sweep now => exact sweep_WF now s h

/-- Every store reached from the empty one has pairwise different keys. -/
theorem run_WF (steps : List Step) : ∀ s, Store.WF s → Store.WF (run s steps) := by
  induction steps with
  | nil => intro s h; exact h
  | cons st rest ih => intro s h; exact ih _ (step_WF s st h)

/-! ## A message that is not a string -/

/-- On a verified record in time, a submit-contact request whose `message` is a
truthy value other than a string makes `sendContactEmail` throw: the answer is
500 "Internal server error", nothing reaches the transport and the record
stays. -/
theorem submitContact_message_not_string :
    submitContact [("id-1", ⟨"123456", JsVal.str "a@x.com", 1000, true⟩)]
        (JsVal.str "id-1") (JsVal.str "Asha") (JsVal.str "a@x.com")
        (JsVal.str "Quote") (JsVal.num 42) 400 true
      = ⟨Response.failure 500 "Internal server error",
          [("id-1", ⟨"123456", JsVal.str "a@x.com", 1000, true⟩)], []⟩ := by
  decide

end AnantServer
